import Mathlib

/-!
Shallow embedding of the mdbook-blox preprocessor pipeline
(src/config.rs, src/parse.rs, src/process/mod.rs, src/process/number_map.rs,
src/process/book_content_item.rs, src/lib.rs), together with theorems that
settle the frozen claims about its specification.

Modelling conventions:
* Rust `String`/`&str` text that is scanned byte-by-byte is modelled as
  `List Char` (all inputs of interest are ASCII, where bytes and chars agree);
  configuration strings, titles, labels and similar atomic values stay `String`.
* `HashMap` is modelled as an association list with first-match lookup and
  replace-on-insert, mirroring the map behaviour used by the code.
* `anyhow::Result<T>` is modelled as `Except String T`.
* `std::path::PathBuf` is modelled as a list of normal components
  (mdbook chapter paths are relative paths of plain components).
-/

namespace MdbookBlox

/-- Slice `s[a..b]` of a byte/char buffer, as in Rust range indexing. -/
def sliceL (s : List Char) (a b : Nat) : List Char :=
  (s.take b).drop a

/-- `[[:space:]]` of the Rust regex crate (ASCII whitespace class). -/
def isSpaceChar (c : Char) : Bool :=
  c = ' ' || c = '\t' || c = '\n' || c = '\x0b' || c = '\x0c' || c = '\r'

/-- `[[:alnum:]_-]`, the character class of blox labels. -/
def isLabelChar (c : Char) : Bool :=
  c.isAlphanum || c = '_' || c = '-'

/-- `str::trim` (ASCII whitespace suffices for the headers we model). -/
def trimL (s : List Char) : List Char :=
  ((s.dropWhile isSpaceChar).reverse.dropWhile isSpaceChar).reverse

/-- `str::starts_with` on char buffers. -/
def startsWithL (p s : List Char) : Bool :=
  match p, s with
  | [], _ => true
  | _ :: _, [] => false
  | a :: ps, b :: ss => a = b && startsWithL ps ss

/-- If `p` begins `s`, the remainder of `s` after `p`. -/
def stripPrefixL (p s : List Char) : Option (List Char) :=
  match p, s with
  | [], s => some s
  | _ :: _, [] => none
  | a :: ps, b :: ss => if a = b then stripPrefixL ps ss else none

/-- `str::split_once (c)`: text before and after the first occurrence of `c`. -/
def splitOnceL (c : Char) : List Char → Option (List Char × List Char)
  | [] => none
  | b :: ss =>
    if b = c then some ([], ss)
    else match splitOnceL c ss with
      | some (l, r) => some (b :: l, r)
      | none => none

/-- Association-list lookup, standing in for `HashMap::get`. -/
def alistLookup {κ α : Type} [DecidableEq κ] (m : List (κ × α)) (k : κ) :
    Option α :=
  match m with
  | [] => none
  | (k', v) :: rest => if k' = k then some v else alistLookup rest k

/-- Association-list insert-or-replace, standing in for `HashMap::insert`. -/
def alistInsert {κ α : Type} [DecidableEq κ] (m : List (κ × α)) (k : κ)
    (v : α) : List (κ × α) :=
  match m with
  | [] => [(k, v)]
  | (k', v') :: rest =>
    if k' = k then (k, v) :: rest else (k', v') :: alistInsert rest k v

/-- `Vec::get` on a list store. -/
def vecGet {α : Type} (l : List α) (i : Nat) : Option α := l.get? i

/-- In-place update of one slot of a `Vec`. -/
def vecSet {α : Type} (l : List α) (i : Nat) (v : α) : List α := l.set i v

end MdbookBlox

namespace MdbookBlox

/-! ## Config (src/config.rs) -/

/-- `EnvironmentConfig` from src/config.rs (the color is kept abstract as a
number; it never influences the pipeline logic). -/
structure EnvironmentConfig where
  name : String
  color : Option Nat
  pfx_number : Option Bool
  hide_name : Option Bool
  hide_header : Option Bool
  numbered : Option Bool
deriving DecidableEq, Repr

/-- `ConfigDefaults` from src/config.rs. -/
structure ConfigDefaults where
  color : Nat
  pfx_number : Bool
  hide_name : Bool
  hide_header : Bool
  numbered : Bool
deriving DecidableEq, Repr

/-- `Config` from src/config.rs; the `environments` HashMap is an
association list. -/
structure Config where
  css : String
  defaults : ConfigDefaults
  environments : List (String × EnvironmentConfig)
deriving DecidableEq, Repr

/-- `Default for ConfigDefaults`. -/
def ConfigDefaults.default : ConfigDefaults :=
  { color := 0xCE0037, pfx_number := true, hide_name := false
    hide_header := false, numbered := true }

/-- `PREPROCESSOR_NAME` / `CODE_BLOCK_KEYWORD`. -/
def CODE_BLOCK_KEYWORD : String := "blox"

/-- `Config::has_environment`. -/
def Config.has_environment (c : Config) (key : String) : Bool :=
  (alistLookup c.environments key).isSome

/-- `Config::get` (the error log is a side effect we drop). -/
def Config.get (c : Config) (key : String) : Option EnvironmentConfig :=
  alistLookup c.environments key

/-- `Config::group_str`: `Ok("blox-<key>")` when the environment exists. -/
def Config.group_str (c : Config) (key : String) : Except String String :=
  if c.has_environment key then .ok (CODE_BLOCK_KEYWORD ++ "-" ++ key)
  else .error "Environment does not exist"

/-- `Config::name`. -/
def Config.name (c : Config) (key : String) : String :=
  ((c.get key).map (fun e => e.name)).getD "ENVIRONMENT"

/-- `Config::prefix_number`. -/
def Config.pfxNumber (c : Config) (key : String) : Bool :=
  ((c.get key).bind (fun e => e.pfx_number)).getD c.defaults.pfx_number

/-- `Config::hide_name`. -/
def Config.hide_name (c : Config) (key : String) : Bool :=
  ((c.get key).bind (fun e => e.hide_name)).getD c.defaults.hide_name

/-- `Config::hide_header`, embedded exactly as written in src/config.rs
lines 97-102: the code reads the environment's `hide_name` field
(not its `hide_header` field) before falling back to the
process-wide `hide_header` default. -/
def Config.hide_header (c : Config) (key : String) : Bool :=
  ((c.get key).bind (fun e => e.hide_name)).getD c.defaults.hide_header

/-- `Config::numbered`. -/
def Config.numbered (c : Config) (key : String) : Bool :=
  ((c.get key).bind (fun e => e.numbered)).getD c.defaults.numbered

/-- `to_toml_ascii` from src/config.rs: keep ASCII alphanumerics, `-`, `_`. -/
def to_toml_ascii (s : String) : String :=
  String.mk (s.toList.filter (fun c => c.isAlphanum || c = '-' || c = '_'))

end MdbookBlox

namespace MdbookBlox

/-! ## Inline code-block options (src/parse.rs, `CodeBlockOptions`) -/

/-- `CodeBlockOptions` from src/parse.rs. -/
structure CodeBlockOptions where
  title : Option String
  footer : Option String
  label : Option String
  defer_rendering : Bool
  hide_name : Option Bool
  hide_header : Option Bool
  numbered : Option Bool
deriving DecidableEq, Repr

/-- `Default for CodeBlockOptions`. -/
def CodeBlockOptions.default : CodeBlockOptions :=
  { title := none, footer := none, label := none, defer_rendering := false
    hide_name := none, hide_header := none, numbered := none }

/-- One TOML inline value: string, boolean or unsigned integer. -/
inductive TomlValue where
  | str (s : String)
  | boolean (b : Bool)
  | nat (n : Nat)
deriving DecidableEq, Repr

/-- Reads one inline-TOML value from the front of the buffer.
Modelled from the spec: the restricted `key = value, ...` grammar with
string/boolean/unsigned-integer values (the code hands the option text to
the external `toml` crate). String values are taken verbatim up to the
closing quote. -/
def parseTomlValue (s : List Char) : Except String (TomlValue × List Char) :=
  match s with
  | '"' :: rest =>
    match splitOnceL '"' rest with
    | some (inner, rest') => .ok (.str (String.mk inner), rest')
    | none => .error "unterminated string value"
  | _ =>
    if startsWithL "true".toList s then .ok (.boolean true, s.drop 4)
    else if startsWithL "false".toList s then .ok (.boolean false, s.drop 5)
    else
      let digits := s.takeWhile (fun c => c.isDigit)
      if digits.isEmpty then .error "unrecognised value"
      else .ok (.nat (String.mk digits).toNat!, s.drop digits.length)

/-- Stores one parsed `key = value` pair into the option record.
Unknown keys are ignored (serde's default), mismatched types are errors. -/
def CodeBlockOptions.setField (o : CodeBlockOptions) (key : String)
    (v : TomlValue) : Except String CodeBlockOptions :=
  match key, v with
  | "title", .str s => .ok { o with title := some s }
  | "footer", .str s => .ok { o with footer := some s }
  | "label", .str s => .ok { o with label := some s }
  | "defer_rendering", .boolean b => .ok { o with defer_rendering := b }
  | "hide_name", .boolean b => .ok { o with hide_name := some b }
  | "hide_header", .boolean b => .ok { o with hide_header := some b }
  | "numbered", .boolean b => .ok { o with numbered := some b }
  | "title", _ | "footer", _ | "label", _ => .error "expected a string value"
  | "defer_rendering", _ | "hide_name", _ | "hide_header", _ | "numbered", _ =>
    .error "expected a boolean value"
  | _, _ => .ok o

/-- Key = value list parser loop (fuel decreases every round; each round of
the real grammar consumes at least one character). -/
def parseOptionsAux : Nat → CodeBlockOptions → List Char →
    Except String CodeBlockOptions
  | 0, _, _ => .error "option text too long"
  | fuel + 1, o, s =>
    let s := s.dropWhile isSpaceChar
    if s.isEmpty then .ok o
    else
      let key := s.takeWhile (fun c => c.isAlphanum || c = '_' || c = '-')
      if key.isEmpty then .error "expected a key"
      else
        let s := (s.drop key.length).dropWhile isSpaceChar
        match s with
        | '=' :: s =>
          match parseTomlValue (s.dropWhile isSpaceChar) with
          | .error e => .error e
          | .ok (v, rest) =>
            match (o.setField (String.mk key) v) with
            | .error e => .error e
            | .ok o =>
              let rest := rest.dropWhile isSpaceChar
              match rest with
              | [] => .ok o
              | ',' :: rest => parseOptionsAux fuel o rest
              | _ => .error "expected a comma between options"
        | _ => .error "expected an equals sign"

/-- `CodeBlockOptions::from_string` (src/parse.rs lines 261-269). The code
wraps the text as inline TOML and defers to the external `toml` crate;
the grammar itself is modelled from the spec (§4.1, §6). -/
def CodeBlockOptions.from_string (options : List Char) :
    Except String CodeBlockOptions :=
  parseOptionsAux (options.length + 1) CodeBlockOptions.default options

/-! ## Blox (src/parse.rs) -/

/-- A path: list of normal components (model of `std::path::PathBuf` for
mdbook's relative chapter paths). -/
def BPath : Type := List String
deriving DecidableEq, Repr

/-- `Blox` from src/parse.rs. -/
structure Blox where
  environment : String
  path : Option BPath
  content : List Char
  defer_rendering : Bool
  title : Option String
  footer : Option String
  label : Option String
  number : Option String
  hide_name : Bool
  hide_header : Bool
deriving DecidableEq, Repr

/-- `extract_content` from src/parse.rs lines 272-288. -/
def extract_content (content : List Char) : Except String (List Char) :=
  match content.head? with
  | none => .error "Couldn't find start of fenced block start"
  | some fence_character =>
    match content.reverse.findIdx? (fun c => !(c = fence_character)) with
    | none => .error "Couldn't find start of fenced block end"
    | some end_fence_length =>
      match content.findIdx? (fun c => c = '\n') with
      | none => .error "Couldn't find end of fenced block start"
      | some content_start =>
        let content_end := content.length - end_fence_length
        .ok (sliceL content content_start content_end)

/-- Lines 85-107 of src/parse.rs: resolve the defaultable booleans from the
parsed options and the config, and build the `Blox` record. -/
def Blox.build (config : Config) (env : String) (options : CodeBlockOptions)
    (content : List Char) : Blox :=
  let hide_header := options.hide_header.getD (config.hide_header env)
  let hide_name := hide_header || options.hide_name.getD (config.hide_name env)
  let number :=
    if !hide_name && options.numbered.getD (config.numbered env)
    then some "" else none
  { environment := env
    content := content
    path := none
    title := options.title
    footer := options.footer
    label := options.label.map to_toml_ascii
    defer_rendering := options.defer_rendering
    hide_header := hide_header
    hide_name := hide_name
    number := number }

/-- `Blox::parse` (src/parse.rs lines 50-110): tries to read
`blox <env> [options]` from a fenced block header. -/
def Blox.parse (config : Config) (content : List Char) (header : List Char) :
    Except String (Option Blox) :=
  let header := trimL header
  if !startsWithL CODE_BLOCK_KEYWORD.toList header then .ok none
  else
    match splitOnceL ' ' header with
    | none => .ok none
    | some (keyword, rest) =>
      if !(keyword = CODE_BLOCK_KEYWORD.toList) then .ok none
      else
        -- note: in the no-options branch the code uses the *untrimmed* rest
        let (env, opts_str) :=
          match splitOnceL ' ' (trimL rest) with
          | some (e, o) =>
            (e, (some (trimL o)).filter (fun s : List Char => !s.isEmpty))
          | none => (rest, none)
        if env.isEmpty then .error "No blox environment specified"
        else if !config.has_environment (String.mk env) then
          .error "Blox environment not defined in book.toml"
        else
          match (match opts_str with
                 | some o => CodeBlockOptions.from_string o
                 | none => .ok CodeBlockOptions.default) with
          | .error e => .error e
          | .ok options =>
            match extract_content content with
            | .error e => .error e
            | .ok body =>
              .ok (some (Blox.build config (String.mk env) options body))

/-- `Blox::env`. -/
def Blox.env (b : Blox) : String := b.environment

/-- `Blox::title_numbered`: "Name Number". -/
def Blox.title_numbered (b : Blox) (config : Config) : Option String :=
  b.number.map (fun num => config.name b.env ++ " " ++ num)

/-- `Blox::title_env`: "Name: Title". -/
def Blox.title_env (b : Blox) (config : Config) : Option String :=
  b.title.map (fun title => config.name b.env ++ ": " ++ title)

/-- `Blox::title_full`: "Name [Number][: Title]". -/
def Blox.title_full (b : Blox) (config : Config) : String :=
  let s := config.name b.env
  let s := match b.number with
    | some n => s ++ " " ++ n
    | none => s
  match b.title with
  | some title => s ++ ": " ++ title
  | none => s

/-- `Blox::title_auto`: title only when the name is hidden, else full form. -/
def Blox.title_auto (b : Blox) (config : Config) : Option String :=
  if b.hide_name then b.title else some (b.title_full config)

/-- `Blox::set_number` (src/parse.rs lines 194-207): succeeds whenever the
number slot is `Some`, writing `section_number ++ number` into it. -/
def Blox.set_number (b : Blox) (number : Nat) (section_number : Option String) :
    Blox × Bool :=
  if b.number.isNone then (b, false)
  else
    let s := Nat.repr number
    let s := match section_number with
      | some sn => sn ++ s
      | none => s
    ({ b with number := some s }, true)

/-- `Blox::group_str`. -/
def Blox.group_str (b : Blox) (config : Config) : Option String :=
  (config.group_str b.env).toOption

/-- `Blox::id_str`: "blox-<env>-<label>" for labelled blocks. -/
def Blox.id_str (b : Blox) (config : Config) : Option String :=
  (b.group_str config).bind (fun group =>
    b.label.map (fun label => group ++ "-" ++ label))

/-! ## Relative paths (`pathdiff::diff_paths` and `Blox::rel_path`) -/

/-- `pathdiff::diff_paths` for two relative paths of normal components
(the only shape mdbook chapter paths take): strip the common head, then
one `..` per remaining base component. -/
def diffPaths : List String → List String → List String
  | p, [] => p
  | [], _ :: bs => ".." :: diffPaths [] bs
  | a :: as_, b :: bs =>
    if a = b then diffPaths as_ bs
    else List.replicate (bs.length + 1) ".." ++ a :: as_

/-- Render a component list the way `PathBuf::into_os_string` does. -/
def pathToString (p : List String) : String :=
  String.intercalate "/" p

/-- `Blox::rel_path` (src/parse.rs lines 167-184): empty for the same
document, otherwise `diff_paths(path, parent(base))`. -/
def Blox.rel_path (b : Blox) (base : BPath) : Option String :=
  b.path.map (fun path =>
    if path = base then ""
    else pathToString (diffPaths path (base.dropLast)))

end MdbookBlox

namespace MdbookBlox

/-! ## NumberMap (src/process/number_map.rs) -/

/-- `NumberMap`: one counter per environment key. -/
def NumberMap : Type := List (String × Nat)
deriving DecidableEq, Repr

/-- `NumberMap::new`: every configured environment starts at 1. -/
def NumberMap.new (config : Config) : NumberMap :=
  config.environments.map (fun e => (e.1, 1))

/-- `NumberMap::reset`: back to 1 for every `prefix_number = true`
environment, untouched otherwise. -/
def NumberMap.reset (m : NumberMap) (config : Config) : NumberMap :=
  m.map (fun e => if config.pfxNumber e.1 then (e.1, 1) else e)

/-- Counter lookup (`HashMap::get_mut` read half). -/
def NumberMap.get (m : NumberMap) (key : String) : Option Nat :=
  alistLookup m key

/-- Counter write-back (`HashMap::get_mut` write half). -/
def NumberMap.setCounter (m : NumberMap) (key : String) (v : Nat) : NumberMap :=
  m.map (fun e => if e.1 = key then (e.1, v) else e)

/-- `NumberMap::set_blox` (src/process/number_map.rs lines 38-48): try to
number the block with the environment's counter; on success bump the
counter. Returns the updated map and block. -/
def NumberMap.set_blox (m : NumberMap) (b : Blox)
    (section_number : Option String) : Except String (NumberMap × Blox) :=
  match m.get b.env with
  | none => .error "Couldn't find environment"
  | some n =>
    let (b', numbered) := b.set_number n section_number
    if numbered then .ok (m.setCounter b.env (n + 1), b')
    else .ok (m, b')

/-! ## Content items and rendering -/

/-- `BookContentItem` from src/process/book_content_item.rs. -/
inductive BookContentItem where
  | anonymousBlox (id : Nat)
  | labelledBlox (label : String)
  | other (content : List Char)
deriving DecidableEq, Repr

/-- `BookContentItem::new_other`: drops empty literals. -/
def BookContentItem.new_other (content : List Char) : Option BookContentItem :=
  if content.isEmpty then none else some (.other content)

/-- `BookContentItem::new_other_empty`. -/
def BookContentItem.new_other_empty : BookContentItem := .other []

/-- `BloxCss` class names (src/css). -/
def blockClass : String := "blox"
def headerClass : String := "blox-header"
def contentClass : String := "blox-content"
def footerClass : String := "blox-footer"

/-- Modelled from the spec: the Renderer of §4.5 (`BloxRender::html` as
called by `BookContentItem::to_html`; src/render.rs only holds a stale
version with an incompatible signature). Header = display name (unless
hidden) + number (if assigned) + ": title" (if present), omitted entirely
when `hide_header` is set and no title exists; then body and optional
footer, wrapped in a div carrying the deterministic element id. -/
def BloxRender.html (config : Config) (b : Blox) : String :=
  let headerText : Option String :=
    if b.hide_header && b.title.isNone then none
    else
      let pieces :=
        (if b.hide_name then [] else [config.name b.env]) ++
        (match b.number with | some n => [n] | none => [])
      let base := String.intercalate " " pieces
      match b.title with
      | some t => some (if pieces.isEmpty then t else base ++ ": " ++ t)
      | none => if pieces.isEmpty then none else some base
  let headerDiv := match headerText with
    | some h =>
      "<div class=\"" ++ headerClass ++ "\">" ++ h ++ "</div>"
    | none => ""
  let footerDiv := match b.footer with
    | some f =>
      "<div class=\"" ++ footerClass ++ "\">" ++ f ++ "</div>"
    | none => ""
  let id := (b.id_str config).getD ""
  let group := (config.group_str b.env).toOption.getD ""
  "<div id=\"" ++ id ++ "\" class=\"" ++ blockClass ++ " " ++ group ++ "\">"
    ++ headerDiv ++ "<div class=\"" ++ contentClass ++ "\">\n"
    ++ String.mk b.content ++ "\n</div>" ++ footerDiv ++ "</div>\n"

/-- `BookContentItem::to_html` (src/process/book_content_item.rs lines
32-52): blocks render through the Renderer, literals pass through, missing
store entries degrade to the empty string. -/
def BookContentItem.to_html (config : Config) (anon_list : List Blox)
    (label_list : List (String × Blox)) : BookContentItem → List Char
  | .anonymousBlox id =>
    ((vecGet anon_list id).map
      (fun b => (BloxRender.html config b).toList)).getD []
  | .labelledBlox label =>
    ((alistLookup label_list label).map
      (fun b => (BloxRender.html config b).toList)).getD []
  | .other content => content

/-! ## Book model (mdbook collaborator types) -/

/-- `SectionNumber` display (mdbook collaborator): "1.2." with a trailing
dot per component, "0" when empty. -/
def sectionNumberToString (n : List Nat) : String :=
  if n.isEmpty then "0"
  else String.join (n.map (fun i => Nat.repr i ++ "."))

mutual
/-- mdbook `BookItem`. -/
inductive BookItem where
  | chapter (c : Chapter)
  | separator
  | partTitle (t : String)

/-- mdbook `Chapter` (the fields the preprocessor touches or must
preserve). -/
inductive Chapter where
  | mk (name : String) (content : List Char) (number : Option (List Nat))
       (sub_items : List BookItem) (path : Option BPath)
       (source_path : Option BPath) (parent_names : List String)
end

/-- Chapter field accessors. -/
def Chapter.name : Chapter → String
  | .mk n _ _ _ _ _ _ => n
def Chapter.content : Chapter → List Char
  | .mk _ c _ _ _ _ _ => c
def Chapter.number : Chapter → Option (List Nat)
  | .mk _ _ n _ _ _ _ => n
def Chapter.sub_items : Chapter → List BookItem
  | .mk _ _ _ s _ _ _ => s
def Chapter.path : Chapter → Option BPath
  | .mk _ _ _ _ p _ _ => p
def Chapter.source_path : Chapter → Option BPath
  | .mk _ _ _ _ _ p _ => p
def Chapter.parent_names : Chapter → List String
  | .mk _ _ _ _ _ _ p => p

/-- Replace a chapter's content, leaving every other field alone. -/
def Chapter.withContent (c : Chapter) (content : List Char) : Chapter :=
  match c with
  | .mk n _ num s p sp pn => .mk n content num s p sp pn

/-- mdbook `Book`. -/
structure Book where
  sections : List BookItem

/-- `book_filter_iter` (src/process/mod.rs lines 14-22): enumerate the
top-level sections, keep the chapters with their section index. -/
def book_filter_iter (book : Book) : List (Nat × Chapter) :=
  (book.sections.enum.filterMap (fun e =>
    match e with
    | (sec_id, BookItem.chapter c) => some (sec_id, c)
    | _ => none))

end MdbookBlox

namespace MdbookBlox

/-! ## The render-placeholder scanner
`\{\{[[:space:]]*blox-render:[[:space:]]*(?P<label>[[:alnum:]_-]+)[[:space:]]*\}\}`
(src/process/mod.rs lines 111-113). The pattern is deterministic, so a
greedy matcher reproduces the regex crate exactly. -/

/-- Try to match the render placeholder at the head of `s`; on success,
the consumed length and the captured label. -/
def matchRenderAt (s : List Char) : Option (Nat × List Char) :=
  match stripPrefixL ['\x7b', '\x7b'] s with
  | none => none
  | some s1 =>
    let s2 := s1.dropWhile isSpaceChar
    match stripPrefixL "blox-render:".toList s2 with
    | none => none
    | some s3 =>
      let s4 := s3.dropWhile isSpaceChar
      let lab := s4.takeWhile isLabelChar
      if lab.isEmpty then none
      else
        let s5 := (s4.drop lab.length).dropWhile isSpaceChar
        match stripPrefixL ['\x7d', '\x7d'] s5 with
        | none => none
        | some s6 => some (s.length - s6.length, lab)

/-- Leftmost render-placeholder match at or after offset `i`:
`(start, end, label)`. -/
def findRenderFrom : List Char → Nat → Option (Nat × Nat × List Char)
  | [], _ => none
  | c :: rest, i =>
    match matchRenderAt (c :: rest) with
    | some (len, lab) => some (i, i + len, lab)
    | none => findRenderFrom rest (i + 1)

/-- Successive non-overlapping matches (`captures_iter`); every match
consumes at least one character, so `length + 1` rounds of fuel cover
the whole buffer. -/
def renderCapturesAux : Nat → List Char → Nat → List (Nat × Nat × List Char)
  | 0, _, _ => []
  | fuel + 1, s, base =>
    match findRenderFrom s 0 with
    | none => []
    | some (st, en, lab) =>
      (base + st, base + en, lab) :: renderCapturesAux fuel (s.drop en) (base + en)

/-- All render-placeholder captures of a buffer, as `(start, end, label)`
relative to the buffer. -/
def renderCaptures (s : List Char) : List (Nat × Nat × List Char) :=
  renderCapturesAux (s.length + 1) s 0

/-! ## Section processing (src/process/mod.rs) -/

/-- `BloxProcessor`'s mutable stores. -/
structure ProcState where
  anonymous_blox : List Blox
  labelled_blox : List (String × Blox)
  section_items : List (Nat × List BookContentItem)
deriving DecidableEq, Repr

/-- The empty processor (`BloxProcessor::new`). -/
def ProcState.initial : ProcState := ⟨[], [], []⟩

/-- One fenced-block event of the phase-1 loop of `process_section`
(src/process/mod.rs lines 80-109). -/
def processEvent (config : Config) (chapter : List Char)
    (acc : ProcState × List ((Nat × Nat) × BookContentItem))
    (ev : (Nat × Nat) × List Char) :
    Except String (ProcState × List ((Nat × Nat) × BookContentItem)) :=
  let (st, items) := acc
  let (span, header) := ev
  let slice := sliceL chapter span.1 span.2
  match Blox.parse config slice header with
  | .error e => .error e
  | .ok none =>
    match BookContentItem.new_other slice with
    | some bc => .ok (st, items ++ [(span, bc)])
    | none => .ok (st, items)
  | .ok (some blox) =>
    match blox.label with
    | some label =>
      let items :=
        if !blox.defer_rendering then
          items ++ [(span, BookContentItem.labelledBlox label)]
        else
          items ++ [(span, BookContentItem.new_other_empty)]
      .ok ({ st with labelled_blox := alistInsert st.labelled_blox label blox },
           items)
    | none =>
      .ok ({ st with anonymous_blox := st.anonymous_blox ++ [blox] },
           items ++ [(span, BookContentItem.anonymousBlox
                              st.anonymous_blox.length)])

/-- One capture of the inner `captures_iter` loop (src/process/mod.rs lines
125-137). As in the code, capture offsets (relative to the slice the
iterator was created over) are shifted by the *current* value of `last`. -/
def gapCaptureStep (chapter : List Char)
    (acc : List ((Nat × Nat) × BookContentItem) × Nat)
    (cap : Nat × Nat × List Char) :
    List ((Nat × Nat) × BookContentItem) × Nat :=
  let (others, last) := acc
  let (relStart, relEnd, lab) := cap
  let c_start := relStart + last
  let others := match BookContentItem.new_other (sliceL chapter last c_start) with
    | some bc => others ++ [((last, c_start), bc)]
    | none => others
  let c_end := relEnd + last
  let others := others ++ [((c_start, c_end), .labelledBlox (String.mk lab))]
  (others, c_end)

/-- One phase-2 round of `process_section` (src/process/mod.rs lines
123-144): scan the gap before this item's span for render placeholders,
then emit the remaining gap as a literal. -/
def gapScanItem (chapter : List Char)
    (acc : List ((Nat × Nat) × BookContentItem) × Nat)
    (item : (Nat × Nat) × BookContentItem) :
    List ((Nat × Nat) × BookContentItem) × Nat :=
  let (others, last) := acc
  let spanStart := item.1.1
  let caps := renderCaptures (sliceL chapter last spanStart)
  let (others, last) := caps.foldl (gapCaptureStep chapter) (others, last)
  let others := match BookContentItem.new_other (sliceL chapter last spanStart) with
    | some bc => others ++ [((last, spanStart), bc)]
    | none => others
  (others, item.1.2)

/-- `items.sort_by(|a, b| a.0.start.cmp(&b.0.start))`: a stable sort on
the span start (insertion sort with `≤` keeps earlier elements in front of
equal keys, exactly as Rust's stable `sort_by` does). -/
def sortByStart (l : List ((Nat × Nat) × BookContentItem)) :
    List ((Nat × Nat) × BookContentItem) :=
  l.insertionSort (fun a b => a.1.1 ≤ b.1.1)

/-- `BloxProcessor::process_section` (src/process/mod.rs lines 70-158).
`events` are the fenced code-block events of the external markdown
tokenizer: span plus header text, in source order. -/
def processSection (config : Config) (st : ProcState) (section_id : Nat)
    (chapter : List Char) (events : List ((Nat × Nat) × List Char)) :
    Except String ProcState :=
  match events.foldlM (processEvent config chapter) (st, []) with
  | .error e => .error e
  | .ok (st, items) =>
    let items := items ++
      [((chapter.length, chapter.length), BookContentItem.new_other_empty)]
    let other_items := (items.foldl (gapScanItem chapter) ([], 0)).1
    let items := items ++ other_items
    let items := sortByStart items
    let items := (items.filter (fun it => decide (it.1.1 < it.1.2))).map
      (fun it => it.2)
    .ok { st with
          section_items := alistInsert st.section_items section_id items }

/-! ## Numbering pass (src/process/mod.rs lines 160-195) -/

/-- One content item of the numbering loop: number the referenced block (if
any) and record its defining document. -/
def numberOneItem (acc : ProcState × NumberMap) (chapter_number : Option String)
    (chapter_path : Option BPath) (item : BookContentItem) :
    Except String (ProcState × NumberMap) :=
  let (st, nm) := acc
  let found : Option Blox :=
    match item with
    | .anonymousBlox id => vecGet st.anonymous_blox id
    | .labelledBlox s => alistLookup st.labelled_blox s
    | .other _ => none
  match found with
  | none => .ok (st, nm)
  | some blox =>
    match nm.set_blox blox chapter_number with
    | .error e => .error e
    | .ok (nm, blox) =>
      let blox :=
        if blox.label.isSome then { blox with path := chapter_path } else blox
      let st :=
        match item with
        | .anonymousBlox id =>
          { st with anonymous_blox := vecSet st.anonymous_blox id blox }
        | .labelledBlox s =>
          { st with labelled_blox := alistInsert st.labelled_blox s blox }
        | .other _ => st
      .ok (st, nm)

/-- `BloxProcessor::number_items`: one NumberMap threaded over the chapters
in book order; counters of `prefix_number = true` environments are reset
after each chapter that has items. -/
def numberItems (config : Config) (st : ProcState) (book : Book) :
    Except String ProcState :=
  match (book_filter_iter book).foldlM
      (fun (acc : ProcState × NumberMap) sec =>
        let (st, nm) := acc
        let (section_id, chapter) := sec
        let chapter_number := chapter.number.map sectionNumberToString
        match alistLookup st.section_items section_id with
        | none => Except.ok (st, nm)
        | some items =>
          match items.foldlM
              (fun acc2 item =>
                numberOneItem acc2 chapter_number chapter.path item)
              (st, nm) with
          | .error e => Except.error e
          | .ok (st, nm) =>
            (Except.ok (st, nm.reset config) :
              Except String (ProcState × NumberMap)))
      (st, NumberMap.new config) with
  | .error e => .error e
  | .ok (st, _) => .ok st

/-- `BloxProcessor::stringify_section` (src/process/mod.rs lines 197-209). -/
def stringifySection (config : Config) (st : ProcState) (section_id : Nat) :
    Except String (List Char) :=
  match alistLookup st.section_items section_id with
  | none => .error "Section id not found"
  | some items =>
    .ok ((items.map
      (fun it =>
        it.to_html config st.anonymous_blox st.labelled_blox)).flatten)

end MdbookBlox

namespace MdbookBlox

/-! ## Cross-reference resolution (src/process/mod.rs lines 211-289)
Pattern:
`\{\{[[:space:]]*blox-(?P<ref>[ltnfTN]?ref):[[:space:]]*(?P<label>[[:alnum:]_-]+)[[:space:]]*\}\}`
-/

/-- `markdown_link` (src/process/mod.rs lines 287-289). -/
def markdown_link (text link : String) : String :=
  "[" ++ text ++ "](" ++ link ++ ")"

/-- `replace_refs_error` (src/process/mod.rs lines 282-285), with the
code's own (swapped-looking) parameter names: every call site passes the
error message as `label` and the reference label as `err`. The first
component is the inline marker the output receives, the second the
`log::warn!("\x7berr\x7d: \x7blabel\x7d")` text. -/
def replace_refs_error (label : String) (ref_type : String) (err : String) :
    String × String :=
  ("**[??blox-" ++ ref_type ++ ": " ++ label ++ "??]**",
   err ++ ": " ++ label)

/-- Try to match a reference token at the head of `s`; on success the
consumed length, the kind capture and the label capture. The optional
class character and the literal `ref` cannot both apply ('r' is not in
`[ltnfTN]`), so no backtracking is needed. -/
def matchRefAt (s : List Char) : Option (Nat × List Char × List Char) :=
  match stripPrefixL ['\x7b', '\x7b'] s with
  | none => none
  | some s1 =>
    let s2 := s1.dropWhile isSpaceChar
    match stripPrefixL "blox-".toList s2 with
    | none => none
    | some s3 =>
      let kindRest : Option (List Char × List Char) :=
        match s3 with
        | c :: rest =>
          if (c = 'l' || c = 't' || c = 'n' || c = 'f' || c = 'T' || c = 'N')
              && startsWithL "ref".toList rest then
            some (c :: "ref".toList, rest.drop 3)
          else if startsWithL "ref".toList (c :: rest) then
            some ("ref".toList, (c :: rest).drop 3)
          else none
        | [] => none
      match kindRest with
      | none => none
      | some (kind, s4) =>
        match s4 with
        | ':' :: s5 =>
          let s6 := s5.dropWhile isSpaceChar
          let lab := s6.takeWhile isLabelChar
          if lab.isEmpty then none
          else
            let s7 := (s6.drop lab.length).dropWhile isSpaceChar
            match stripPrefixL ['\x7d', '\x7d'] s7 with
            | none => none
            | some s8 => some (s.length - s8.length, kind, lab)
        | _ => none

/-- Split the buffer at the leftmost reference-token match:
text before the match, the kind capture, the label capture, and the text
after the match. -/
def findRefSplit : List Char →
    Option (List Char × List Char × List Char × List Char)
  | [] => none
  | c :: rest =>
    match matchRefAt (c :: rest) with
    | some (len, kind, lab) => some ([], kind, lab, (c :: rest).drop len)
    | none =>
      match findRefSplit rest with
      | some (pre, kind, lab, post) => some (c :: pre, kind, lab, post)
      | none => none

/-- The closure handed to `Regex::replace_all` (src/process/mod.rs lines
217-275), applied to the two capture groups. The two
`caps.name(..)`-missing branches cannot trigger for an actual match of
this pattern and are elided. Returns the replacement text and the list of
warnings logged while producing it. -/
def refReplacement (config : Config) (labelled_blox : List (String × Blox))
    (chapter_path : Option BPath) (ref_type label : String) :
    String × List String :=
  match alistLookup labelled_blox label with
  | none =>
    let (s, w) := replace_refs_error "Unknown blox ref" ref_type label
    (s, [w])
  | some blox =>
    match chapter_path.bind (fun p => blox.rel_path p) with
    | none =>
      let (s, w) :=
        replace_refs_error "Failed to get path to blox" ref_type label
      (s, [w])
    | some path0 =>
      let path :=
        path0 ++ (((blox.id_str config).map (fun s => "#" ++ s)).getD "")
      if ref_type = "Tref" then
        match blox.title with
        | some s => (s, [])
        | none =>
          let (s, w) :=
            replace_refs_error "Blox does not have a title" ref_type label
          (s, [w])
      else if ref_type = "Nref" then
        match blox.number with
        | some s => (s, [])
        | none =>
          let (s, w) :=
            replace_refs_error "Blox does not have a number" ref_type label
          (s, [w])
      else if ref_type = "lref" then (path, [])
      else if ref_type = "tref" then
        match blox.title_env config with
        | some s => (markdown_link s path, [])
        | none =>
          let (s, w) :=
            replace_refs_error "Blox does not have a title" ref_type label
          (s, [w])
      else if ref_type = "nref" then
        match blox.title_numbered config with
        | some s => (markdown_link s path, [])
        | none =>
          let (s, w) :=
            replace_refs_error "Blox does not have a number" ref_type label
          (s, [w])
      else if ref_type = "fref" then
        (markdown_link (blox.title_full config) path, [])
      else
        match blox.title_auto config with
        | some s => (markdown_link s path, [])
        | none =>
          let (s, w) :=
            replace_refs_error "Blox does not have a title" ref_type label
          (s, [w])

/-- `Regex::replace_all`: rewrite every non-overlapping match left to
right (fuel covers the buffer since every match consumes ≥ 1 char). -/
def replaceAllRefs (f : String → String → String × List String) :
    Nat → List Char → List Char × List String
  | 0, s => (s, [])
  | fuel + 1, s =>
    match findRefSplit s with
    | none => (s, [])
    | some (pre, kind, lab, post) =>
      let (rep, ws) := f (String.mk kind) (String.mk lab)
      let (rest, ws') := replaceAllRefs f fuel post
      (pre ++ rep.toList ++ rest, ws ++ ws')

/-- `BloxProcessor::replace_refs` (src/process/mod.rs lines 211-279).
Returns the rewritten content plus the warnings logged on the way; the
Rust function only fails if the static regex fails to compile, which it
never does. -/
def replace_refs (config : Config) (labelled_blox : List (String × Blox))
    (chapter : Chapter) (content : List Char) :
    Except String (List Char × List String) :=
  .ok (replaceAllRefs (refReplacement config labelled_blox chapter.path)
        (content.length + 1) content)

/-! ## Whole-book processing (src/process/mod.rs lines 51-68, src/lib.rs) -/

/-- `BloxProcessor::process`: extract-all, number-all, then
stringify-and-resolve each chapter. The markdown tokenizer
(pulldown-cmark) is an external collaborator and enters as the `tokenize`
argument producing the fenced-block events of a chapter. -/
def BloxProcessor.process
    (tokenize : List Char → List ((Nat × Nat) × List Char))
    (book : Book) (config : Config) :
    Except String (List (Nat × List Char)) :=
  match (book_filter_iter book).foldlM
      (fun st sec =>
        processSection config st sec.1 sec.2.content (tokenize sec.2.content))
      ProcState.initial with
  | .error e => .error e
  | .ok st =>
    match numberItems config st book with
    | .error e => .error e
    | .ok st =>
      (book_filter_iter book).foldlM
        (fun acc sec =>
          match stringifySection config st sec.1 with
          | .error e => Except.error e
          | .ok s =>
            match replace_refs config st.labelled_blox sec.2 s with
            | .error e => Except.error e
            | .ok (s', _warnings) =>
              (Except.ok (alistInsert acc sec.1 s') :
                Except String (List (Nat × List Char))))
        ([] : List (Nat × List Char))

/-- `BloxPreProcessor::run` (src/lib.rs lines 28-39): process the book,
then write each produced content string into its chapter; everything else
is carried over unchanged. `Config::from_context` is external
configuration loading, so the config is an argument. -/
def BloxPreProcessor.run
    (tokenize : List Char → List ((Nat × Nat) × List Char))
    (config : Config) (book : Book) : Except String Book :=
  match BloxProcessor.process tokenize book config with
  | .error e => .error e
  | .ok new_content =>
    .ok ⟨book.sections.enum.map (fun e =>
      match e with
      | (sec_id, BookItem.chapter c) =>
        match alistLookup new_content sec_id with
        | some content => BookItem.chapter (c.withContent content)
        | none => BookItem.chapter c
      | (_, item) => item)⟩

end MdbookBlox

namespace MdbookBlox

/-! ## Assembler characterisation (used to settle the identity law) -/

/-- The phase-1 items of a document in which every fenced region fails to
parse as a blox block: one literal per region, carrying the region's own
text. -/
def blocksOf (chapter : List Char)
    (events : List ((Nat × Nat) × List Char)) :
    List ((Nat × Nat) × BookContentItem) :=
  events.map (fun ev =>
    (ev.1, BookContentItem.other (sliceL chapter ev.1.1 ev.1.2)))

/-- The sentinel item `process_section` appends before the gap scan. -/
def sentinelItem (chapter : List Char) : (Nat × Nat) × BookContentItem :=
  ((chapter.length, chapter.length), BookContentItem.new_other_empty)

/-- The literal items the gap scan produces when no render placeholder
matches: one (possibly dropped) literal per gap before each item. -/
def gapsOf (chapter : List Char) :
    List ((Nat × Nat) × BookContentItem) → Nat →
    List ((Nat × Nat) × BookContentItem)
  | [], _ => []
  | (span, _) :: rest, last =>
    (match BookContentItem.new_other (sliceL chapter last span.1) with
     | some bc => [((last, span.1), bc)]
     | none => []) ++ gapsOf chapter rest span.2

/-- The `last` offset after the gap-scan fold. -/
def finalLast : List ((Nat × Nat) × BookContentItem) → Nat → Nat
  | [], last => last
  | (span, _) :: rest, _ => finalLast rest span.2

/-- The fully assembled, start-sorted item sequence of a document whose
fenced regions are all literal: alternating gaps and regions, closed by
the final gap and the sentinel. -/
def tiled (chapter : List Char) :
    List ((Nat × Nat) × List Char) → Nat →
    List ((Nat × Nat) × BookContentItem)
  | [], last =>
    (match BookContentItem.new_other (sliceL chapter last chapter.length) with
     | some bc => [((last, chapter.length), bc)]
     | none => []) ++ [sentinelItem chapter]
  | (span, _) :: rest, last =>
    (match BookContentItem.new_other (sliceL chapter last span.1) with
     | some bc => [((last, span.1), bc)]
     | none => []) ++
    ((span, BookContentItem.other (sliceL chapter span.1 span.2)) ::
      tiled chapter rest span.2)

/-- Well-formed fenced-region events: spans are nonempty, ordered and stay
within the document (as the external tokenizer guarantees). -/
def eventsWF (chapter : List Char) :
    List ((Nat × Nat) × List Char) → Nat → Prop
  | [], last => last ≤ chapter.length
  | (span, _) :: rest, last =>
    last ≤ span.1 ∧ span.1 < span.2 ∧ eventsWF chapter rest span.2

/-- No render placeholder matches in any gap the scan inspects. -/
def noRenderInGapsItems (chapter : List Char) :
    List ((Nat × Nat) × BookContentItem) → Nat → Prop
  | [], _ => True
  | (span, _) :: rest, last =>
    renderCaptures (sliceL chapter last span.1) = [] ∧
      noRenderInGapsItems chapter rest span.2

/-- Every fenced region of the document fails to parse as a blox block
("no match": the region stays literal text). -/
def literalEvents (config : Config) (chapter : List Char) :
    List ((Nat × Nat) × List Char) → Prop
  | [] => True
  | (span, header) :: rest =>
    Blox.parse config (sliceL chapter span.1 span.2) header = .ok none ∧
      literalEvents config chapter rest

/-- The section items of an all-literal document: the tiled order with the
empty spans dropped. -/
def tiledItems (chapter : List Char)
    (events : List ((Nat × Nat) × List Char)) : List BookContentItem :=
  ((tiled chapter events 0).filter
    (fun it => decide (it.1.1 < it.1.2))).map (fun it => it.2)

/-! ## Concrete instances used by the claim theorems -/

/-- A small configuration: `alert` (unnumbered), `exercise` (numbered,
defaults), `fig` (numbered, `prefix_number = false`). -/
def egConfig : Config :=
  { css := "assets/blox.css"
    defaults := ConfigDefaults.default
    environments :=
      [("alert", ⟨"Alert", none, none, none, none, some false⟩),
       ("exercise", ⟨"Exercise", none, none, none, none, none⟩),
       ("fig", ⟨"Figure", none, some false, none, none, some true⟩)] }

/-- The `\x7b\x7bblox-nref:missing\x7d\x7d` token of the C2 scenario. -/
def c2token : List Char := "\x7b\x7bblox-nref:missing\x7d\x7d".toList

/-- A chapter shell for resolving references. -/
def c2chapter : Chapter := Chapter.mk "c" [] none [] (some ["c.md"]) none []

/-- C1 scenario: a labelled numbered block followed by a render placeholder
for the same label. -/
def c1block : String := "```blox exercise label = \"L\"\nX\n```"
def c1chapter : List Char :=
  (c1block ++ "\n\x7b\x7bblox-render:L\x7d\x7d").toList
def c1events : List ((Nat × Nat) × List Char) :=
  [((0, c1block.length), "blox exercise label = \"L\"".toList)]
def c1book : Book :=
  ⟨[BookItem.chapter
      (Chapter.mk "ch" c1chapter none [] (some ["ch.md"]) none [])]⟩

/-- The C1 pipeline: extraction then numbering. -/
def c1run : Except String ProcState :=
  (processSection egConfig ProcState.initial 0 c1chapter c1events).bind
    (fun st => numberItems egConfig st c1book)

/-- The number the labelled block ends up with. -/
def c1finalNumber : Option (Option String) :=
  match c1run with
  | .ok st => (alistLookup st.labelled_blox "L").map Blox.number
  | .error _ => none

/-- The labelled block exactly as extraction stores it. -/
def c1blox : Blox :=
  Blox.build egConfig "exercise"
    { CodeBlockOptions.default with label := some "L" } "\nX\n".toList

/-- The number produced by the first `set_blox` on a fresh NumberMap. -/
def c1firstNumber : Option (Option String) :=
  match (NumberMap.new egConfig).set_blox c1blox none with
  | .ok (_, b) => some b.number
  | .error _ => none

/-- C3 scenario: one `fig` block per chapter, chapters numbered 1 and 2. -/
def c3blk : String := "```blox fig\nX\n```"
def c3book : Book :=
  ⟨[BookItem.chapter (Chapter.mk "a" c3blk.toList (some [1]) []
      (some ["a.md"]) none []),
    BookItem.chapter (Chapter.mk "b" c3blk.toList (some [2]) []
      (some ["b.md"]) none [])]⟩
def c3events : List ((Nat × Nat) × List Char) :=
  [((0, c3blk.length), "blox fig".toList)]

/-- The C3 pipeline over both chapters. -/
def c3run : Except String ProcState :=
  (processSection egConfig ProcState.initial 0 c3blk.toList c3events).bind
    (fun st => (processSection egConfig st 1 c3blk.toList c3events).bind
      (fun st => numberItems egConfig st c3book))

/-- The numbers assigned to the two `fig` blocks, in order. -/
def c3numbers : Option (List (Option String)) :=
  match c3run with
  | .ok st => some (st.anonymous_blox.map Blox.number)
  | .error _ => none

/-- C4 scenario: a single anonymous block with `defer_rendering = true`. -/
def c4blk : String := "```blox alert defer_rendering = true\nX\n```"
def c4events : List ((Nat × Nat) × List Char) :=
  [((0, c4blk.length), "blox alert defer_rendering = true".toList)]

/-- The C4 section items. -/
def c4items : Option (List BookContentItem) :=
  match processSection egConfig ProcState.initial 0 c4blk.toList c4events with
  | .ok st => alistLookup st.section_items 0
  | .error _ => none

/-- The C4 stringified section. -/
def c4text : Except String (List Char) :=
  (processSection egConfig ProcState.initial 0 c4blk.toList c4events).bind
    (fun st => stringifySection egConfig st 0)

/-- The number string `set_number` writes: the counter, prefixed with the
section number when one is supplied. -/
def numberString (sn : Option String) (c : Nat) : String :=
  match sn with
  | some p => p ++ Nat.repr c
  | none => Nat.repr c

/-- C4 witness inputs: a labelled `alert` block with
`defer_rendering = true`. -/
def c4lblk : String :=
  "```blox alert defer_rendering = true, label = \"D\"\nX\n```"
def c4lheader : List Char :=
  "blox alert defer_rendering = true, label = \"D\"".toList
def c4lblox : Blox :=
  Blox.build egConfig "alert"
    { CodeBlockOptions.default with defer_rendering := true, label := some "D" }
    "\nX\n".toList

/-- C5 inputs: `e` overrides only `hide_name`; `f` overrides `hide_header`
explicitly (and sets `hide_name = false`); the process default for
`hide_header` is `false` in both cases. -/
def c5Config : Config :=
  { css := "assets/blox.css"
    defaults := ConfigDefaults.default
    environments :=
      [("e", ⟨"E", none, none, some true, none, none⟩),
       ("f", ⟨"F", none, none, some false, some true, none⟩)] }

/-- C6 witness input: a document with one non-blox fenced region and no
render placeholders. -/
def c6doc : String := "t\n```rust\ncode\n```\nu"
def c6events : List ((Nat × Nat) × List Char) := [((2, 18), "rust".toList)]

/-- C6 counterexample input: a block-free document containing a render
placeholder. -/
def c6tokenDoc : List Char := "a \x7b\x7bblox-render: x \x7d\x7d b".toList

/-- The C6 counterexample run (no fenced regions at all). -/
def c6tokenText : Except String (List Char) :=
  (processSection egConfig ProcState.initial 0 c6tokenDoc []).bind
    (fun st => stringifySection egConfig st 0)

/-- C8 and C9 instances: a labelled `alert` block with a title, defined in
document `a.md`. -/
def c8blox : Blox :=
  { Blox.build egConfig "alert"
      { CodeBlockOptions.default with label := some "L", title := some "T" }
      [] with
    path := some ["a.md"] }

/-- The same block with its name hidden and no title. -/
def c8bloxHidden : Blox :=
  { Blox.build egConfig "alert"
      { CodeBlockOptions.default with
        label := some "L", hide_name := some true } [] with
    path := some ["a.md"] }

/-- An unrecognized-kind reference token. -/
def c9token : List Char := "\x7b\x7bblox-xref:L\x7d\x7d".toList

/-- Strip the anchor fragment of a link target: the text before `#`. -/
def stripAnchor (s : String) : String :=
  String.mk (s.toList.takeWhile (fun c => !(c = '#')))

/-- A markdown link always begins with an opening bracket. -/
def looksLikeLink (s : String) : Bool :=
  s.toList.head? = some '['

/-- C10 instances: a tiny book and a tokenizer that reports no fenced
regions. -/
def c10tok : List Char → List ((Nat × Nat) × List Char) := fun _ => []
def c10chapter : Chapter :=
  Chapter.mk "One" "hi".toList (some [1]) [] (some ["one.md"]) none []
def c10book : Book := ⟨[BookItem.separator, BookItem.chapter c10chapter]⟩

/-- Two book items agree on everything except (for chapters) the content. -/
def itemAgreesExceptContent : BookItem → BookItem → Prop
  | .chapter c, .chapter c' =>
    c.name = c'.name ∧ c.number = c'.number ∧ c.sub_items = c'.sub_items
      ∧ c.path = c'.path ∧ c.source_path = c'.source_path
      ∧ c.parent_names = c'.parent_names
  | .separator, .separator => True
  | .partTitle t, .partTitle t' => t = t'
  | _, _ => False

end MdbookBlox

namespace MdbookBlox

/-- Equality on `Except` results is decidable componentwise. -/
instance {ε α : Type} [DecidableEq ε] [DecidableEq α] :
    DecidableEq (Except ε α) := fun a b =>
  match a, b with
  | .ok x, .ok y =>
    match decEq x y with
    | isTrue h => isTrue (by rw [h])
    | isFalse h => isFalse (by intro hc; cases hc; exact h rfl)
  | .error x, .error y =>
    match decEq x y with
    | isTrue h => isTrue (by rw [h])
    | isFalse h => isFalse (by intro hc; cases hc; exact h rfl)
  | .ok _, .error _ => isFalse (by intro hc; cases hc)
  | .error _, .ok _ => isFalse (by intro hc; cases hc)

/-! ## Generic lemmas -/

/-- `replace_all` on an empty buffer does nothing. -/
theorem replaceAllRefs_nil (f : String → String → String × List String)
    (n : Nat) : replaceAllRefs f n [] = ([], []) := by
  cases n <;> rfl

/-- One unfolding step of `replace_all`. -/
theorem replaceAllRefs_succ (f : String → String → String × List String)
    (n : Nat) (s : List Char) :
    replaceAllRefs f (n + 1) s =
      match findRefSplit s with
      | none => (s, [])
      | some (pre, kind, lab, post) =>
        let (rep, ws) := f (String.mk kind) (String.mk lab)
        let (rest, ws') := replaceAllRefs f n post
        (pre ++ rep.toList ++ rest, ws ++ ws') := rfl

/-- Inserting then looking up the same key. -/
theorem alistLookup_insert_self {κ α : Type} [DecidableEq κ]
    (m : List (κ × α)) (k : κ) (v : α) :
    alistLookup (alistInsert m k v) k = some v := by
  induction m with
  | nil => simp [alistInsert, alistLookup]
  | cons hd tl ih =>
    by_cases h : hd.1 = k
    · simp [alistInsert, alistLookup, h]
    · simp [alistInsert, alistLookup, h, ih]

/-- Lookup at a different key is unaffected by an insert. -/
theorem alistLookup_insert_other {κ α : Type} [DecidableEq κ]
    (m : List (κ × α)) (k k' : κ) (v : α) (h : ¬ k = k') :
    alistLookup (alistInsert m k v) k' = alistLookup m k' := by
  induction m with
  | nil => simp [alistInsert, alistLookup, h]
  | cons hd tl ih =>
    by_cases h2 : hd.1 = k
    · simp [alistInsert, alistLookup, h2, h]
    · simp only [alistInsert, h2, if_false]
      by_cases h3 : hd.1 = k'
      · simp [alistLookup, h3]
      · simp [alistLookup, h3, ih]

/-- A markdown link always begins with `[`. -/
theorem looksLikeLink_markdown_link (text link : String) :
    looksLikeLink (markdown_link text link) = true := by
  simp [looksLikeLink, markdown_link, String.toList]

end MdbookBlox

namespace MdbookBlox

/-- C5: `Config::hide_header` does not behave as claimed: for environment
`e`, which supplies no `hide_header` override (its `hide_header` field is
`none`) while the process-wide default is `false`, the accessor returns
`true` — the environment's `hide_name` override — and for environment `f`,
whose explicit `hide_header` override is `true`, the accessor returns
`false` because it reads the `hide_name` field instead. This evaluates the
code at the failing inputs of the code_bug report. -/
theorem c5_hide_header_reads_hide_name :
    (((c5Config.get "e").bind (fun e => e.hide_header) = none)
      ∧ c5Config.defaults.hide_header = false
      ∧ Config.hide_header c5Config "e" = true)
    ∧ (((c5Config.get "f").bind (fun e => e.hide_header) = some true)
      ∧ Config.hide_header c5Config "f" = false) := by
  decide

end MdbookBlox

namespace MdbookBlox

/-- C7: for every parsed block (every output of the header resolution of
`Blox::parse`), the numbering slot is `None` whenever the effective
`hide_name` is true; the effective `hide_header` is the inline option or
the config default, `hide_name` is forced true whenever `hide_header` is
true and otherwise equals the inline option or the config default; and a
block whose numbering slot is `None` is never assigned a number by
`set_number`. -/
theorem c7_hide_name_blocks_numbering
    (config : Config) (env : String) (options : CodeBlockOptions)
    (content : List Char) (b : Blox) (n : Nat) (sn : Option String) :
    ((Blox.build config env options content).hide_name = true →
      (Blox.build config env options content).number = none)
    ∧ (Blox.build config env options content).hide_header =
        options.hide_header.getD (config.hide_header env)
    ∧ (Blox.build config env options content).hide_name =
        ((Blox.build config env options content).hide_header
          || options.hide_name.getD (config.hide_name env))
    ∧ ((Blox.build config env options content).hide_header = true →
        (Blox.build config env options content).hide_name = true)
    ∧ (b.number = none → b.set_number n sn = (b, false)) := by
  refine ⟨?_, rfl, rfl, ?_, ?_⟩
  · intro h
    simp only [Blox.build] at h ⊢
    rw [h]
    simp
  · intro h
    simp only [Blox.build] at h ⊢
    rw [h]
    simp
  · intro h
    simp [Blox.set_number, h]

/-- Witness for C7 at a concrete input: an `alert` block with
`hide_name = true` gets no numbering slot and `set_number` leaves it
untouched. -/
theorem c7_hide_name_blocks_numbering_witness :
    (Blox.build egConfig "alert"
        { CodeBlockOptions.default with hide_name := some true } []).number
      = none
    ∧ Blox.set_number
        (Blox.build egConfig "alert"
          { CodeBlockOptions.default with hide_name := some true } []) 3 none
      = (Blox.build egConfig "alert"
          { CodeBlockOptions.default with hide_name := some true } [], false) :=
  ⟨(c7_hide_name_blocks_numbering egConfig "alert"
      { CodeBlockOptions.default with hide_name := some true } []
      (Blox.build egConfig "alert"
        { CodeBlockOptions.default with hide_name := some true } []) 3 none).1
      (by decide),
   (c7_hide_name_blocks_numbering egConfig "alert"
      { CodeBlockOptions.default with hide_name := some true } []
      (Blox.build egConfig "alert"
        { CodeBlockOptions.default with hide_name := some true } []) 3 none).2.2.2.2
      (by decide)⟩

end MdbookBlox

namespace MdbookBlox

/-- C2 counterexample: resolving `\x7b\x7bblox-nref:missing\x7d\x7d` with no
block labelled `missing` produces the marker
`**[??blox-nref: Unknown blox ref??]**` — the error message, not the
label — so the output is not the literal `**[??blox-nref: missing??]**`
the claim states. -/
theorem c2_counterexample :
    replace_refs egConfig [] c2chapter c2token =
      .ok ("**[??blox-nref: Unknown blox ref??]**".toList,
           ["missing: Unknown blox ref"])
    ∧ ("**[??blox-nref: Unknown blox ref??]**".toList
        ≠ "**[??blox-nref: missing??]**".toList) := by
  constructor
  · decide
  · decide

/-- C2 as amended: for every configuration and label map in which no block
carries the label `missing`, resolving `\x7b\x7bblox-nref:missing\x7d\x7d`
substitutes the literal marker `**[??blox-nref: Unknown blox ref??]**`
(the label goes into the logged warning `missing: Unknown blox ref`
instead), and `replace_refs` returns success. -/
theorem c2_nref_missing_marker (config : Config)
    (labMap : List (String × Blox)) (ch : Chapter)
    (h : alistLookup labMap "missing" = none) :
    replace_refs config labMap ch c2token =
      .ok ("**[??blox-nref: Unknown blox ref??]**".toList,
           ["missing: Unknown blox ref"]) := by
  have e1 : (String.mk ("missing".toList) : String) = "missing" := rfl
  have hsplit : findRefSplit c2token =
      some ([], "nref".toList, "missing".toList, []) := by decide
  have hf : refReplacement config labMap ch.path
      (String.mk "nref".toList) (String.mk "missing".toList) =
      ("**[??blox-nref: Unknown blox ref??]**",
       ["missing: Unknown blox ref"]) := by
    unfold refReplacement
    rw [e1, h]
    rfl
  unfold replace_refs
  rw [replaceAllRefs_succ, hsplit]
  simp only [hf, replaceAllRefs_nil]
  decide

/-- Witness for C2 as amended, at the empty label map. -/
theorem c2_nref_missing_marker_witness :
    replace_refs egConfig [] c2chapter c2token =
      .ok ("**[??blox-nref: Unknown blox ref??]**".toList,
           ["missing: Unknown blox ref"]) :=
  c2_nref_missing_marker egConfig [] c2chapter (by decide)

end MdbookBlox

namespace MdbookBlox

/-- C9 counterexample: the token `\x7b\x7bblox-xref:L\x7d\x7d` — kind
`xref`, not one of the seven — is left untouched by the resolver even
though the label `L` is registered, instead of producing the hyperlinked
auto form the claim states. -/
theorem c9_counterexample :
    replace_refs egConfig [("L", c8blox)] c2chapter c9token =
      .ok (c9token, [])
    ∧ c9token ≠
      (refReplacement egConfig [("L", c8blox)] c2chapter.path "ref" "L").1.toList := by
  constructor
  · decide
  · decide

/-- C9 as amended: a reference token whose kind is not one of
ref/lref/tref/nref/fref/Tref/Nref (here `xref`) never matches the
resolver's pattern, so the token is left untouched and no warning is
logged, for every configuration, label map and chapter; the "behaves as
`ref`" clause only describes the default dispatch arm, which kind `ref`
itself reaches. -/
theorem c9_unrecognized_kind_untouched (config : Config)
    (labMap : List (String × Blox)) (ch : Chapter) :
    replace_refs config labMap ch c9token = .ok (c9token, []) := by
  have hsplit : findRefSplit c9token = none := by decide
  unfold replace_refs
  rw [replaceAllRefs_succ, hsplit]

end MdbookBlox

namespace MdbookBlox

/-- C4 counterexample: a section whose only block is anonymous with
`defer_rendering = true` yields the item `AnonymousBlox 0` — the block is
rendered at its source region, not replaced by the zero-width placeholder
`Other ""` — and the stringified section is not empty. -/
theorem c4_counterexample :
    c4items = some [BookContentItem.anonymousBlox 0]
    ∧ c4items ≠ some [BookContentItem.other []]
    ∧ c4text ≠ .ok [] := by
  refine ⟨by decide, by decide, by decide⟩

/-- C4 as amended: a *labelled* block with `defer_rendering = true` leaves
the zero-width placeholder `Other ""` at its source span while the block
is registered in the labelled store (anonymous blocks are rendered in
place regardless of the flag, as the counterexample shows). -/
theorem c4_labelled_defer_zero_width (config : Config) (chapter : List Char)
    (st : ProcState) (items : List ((Nat × Nat) × BookContentItem))
    (span : Nat × Nat) (header : List Char) (blox : Blox) (l : String)
    (hparse : Blox.parse config (sliceL chapter span.1 span.2) header =
      .ok (some blox))
    (hlab : blox.label = some l) (hdefer : blox.defer_rendering = true) :
    processEvent config chapter (st, items) (span, header) =
      .ok ({ st with labelled_blox := alistInsert st.labelled_blox l blox },
           items ++ [(span, BookContentItem.other [])])
    ∧ alistLookup (alistInsert st.labelled_blox l blox) l = some blox
    ∧ BookContentItem.to_html config st.anonymous_blox
        (alistInsert st.labelled_blox l blox) (BookContentItem.other []) = [] := by
  refine ⟨?_, alistLookup_insert_self _ _ _, rfl⟩
  simp only [processEvent]
  rw [hparse]
  simp [hlab, hdefer, BookContentItem.new_other_empty]

/-- Witness for C4 as amended: the concrete labelled deferred block. -/
theorem c4_labelled_defer_zero_width_witness :
    processEvent egConfig c4lblk.toList (ProcState.initial, [])
      ((0, c4lblk.length), c4lheader) =
      .ok ({ ProcState.initial with
             labelled_blox := alistInsert ProcState.initial.labelled_blox
               "D" c4lblox },
           [] ++ [((0, c4lblk.length), BookContentItem.other [])])
    ∧ alistLookup (alistInsert ProcState.initial.labelled_blox "D" c4lblox)
        "D" = some c4lblox
    ∧ BookContentItem.to_html egConfig ProcState.initial.anonymous_blox
        (alistInsert ProcState.initial.labelled_blox "D" c4lblox)
        (BookContentItem.other []) = [] :=
  c4_labelled_defer_zero_width egConfig c4lblk.toList ProcState.initial []
    (0, c4lblk.length) c4lheader c4lblox "D" (by decide) (by decide) (by decide)

end MdbookBlox

namespace MdbookBlox

/-- C1 counterexample: in a document whose labelled block `L` is referenced
by two content items (its definition and a render placeholder), the first
successful `set_number` assigns "1", yet after the full numbering pass the
block's number is "2": a later numbering step reassigned it. -/
theorem c1_counterexample :
    c1firstNumber = some (some "1")
    ∧ c1finalNumber = some (some "2")
    ∧ (some (some "1") : Option (Option String)) ≠ some (some "2") := by
  refine ⟨by decide, by decide, by decide⟩

/-- C1 as amended: `set_number` succeeds whenever the numbering slot is
`Some` — even when a number is already assigned — overwriting the slot
with the current counter (section prefix prepended) and incrementing the
counter; a slot that is `None` is never written. A block referenced by a
single content item is therefore numbered once, but each further content
item referencing the same block reassigns its number. -/
theorem c1_number_overwritten_on_reencounter
    (m : NumberMap) (b : Blox) (sn : Option String) (c : Nat) (s : String)
    (hc : m.get b.env = some c) (hs : b.number = some s) :
    m.set_blox b sn =
      .ok (m.setCounter b.env (c + 1),
           { b with number := some (numberString sn c) })
    ∧ (∀ b' : Blox, ∀ n' : Nat, ∀ sn' : Option String,
        b'.number = none → Blox.set_number b' n' sn' = (b', false)) := by
  constructor
  · simp only [NumberMap.set_blox]
    rw [hc]
    cases sn <;> simp [Blox.set_number, hs, numberString]
  · intro b' n' sn' h
    simp [Blox.set_number, h]

/-- Witness for C1 as amended: the concrete labelled block, already
numbered "1", is renumbered to "2" by a second `set_blox`. -/
theorem c1_number_overwritten_witness :
    NumberMap.set_blox ((NumberMap.new egConfig).setCounter "exercise" 2)
        { c1blox with number := some "1" } none =
      .ok (((NumberMap.new egConfig).setCounter "exercise" 2).setCounter
             "exercise" 3,
           { { c1blox with number := some "1" } with
             number := some (numberString none 2) }) :=
  (c1_number_overwritten_on_reencounter
    ((NumberMap.new egConfig).setCounter "exercise" 2)
    { c1blox with number := some "1" } none 2 "1" (by decide) (by decide)).1

end MdbookBlox

namespace MdbookBlox

/-- Looking a key up through a key-preserving entry map. -/
theorem alistLookup_map_keyfix {α : Type} (g : String × α → String × α)
    (hg : ∀ e, (g e).1 = e.1) (m : List (String × α)) (k : String) :
    alistLookup (m.map g) k =
      (alistLookup m k).map (fun v => (g (k, v)).2) := by
  induction m with
  | nil => rfl
  | cons hd tl ih =>
    obtain ⟨k', v⟩ := hd
    by_cases hk : k' = k
    · subst hk
      have h1 : (g (k', v)).1 = k' := hg (k', v)
      simp [alistLookup, h1]
    · have h1 : (g (k', v)).1 = k' := hg (k', v)
      simp [alistLookup, h1, hk, ih]

/-- `reset` leaves the counter of a `prefix_number = false` environment
untouched. -/
theorem numberMapGet_reset (config : Config) (m : List (String × Nat))
    (k : String) (h : config.pfxNumber k = false) :
    NumberMap.get (NumberMap.reset m config) k = NumberMap.get m k := by
  have hm := alistLookup_map_keyfix
    (fun e => if config.pfxNumber e.1 then (e.1, 1) else e)
    (fun e => by by_cases hp : config.pfxNumber e.1 <;> simp [hp]) m k
  simp only [NumberMap.get, NumberMap.reset]
  rw [hm]
  cases halt : alistLookup m k <;> simp [h]

/-- Writing a counter that exists makes the next read see the new value. -/
theorem numberMapGet_setCounter (m : List (String × Nat)) (k : String)
    (v c : Nat) (h : NumberMap.get m k = some c) :
    NumberMap.get (NumberMap.setCounter m k v) k = some v := by
  have hm := alistLookup_map_keyfix
    (fun e => if e.1 = k then (e.1, v) else e)
    (fun e => by by_cases hp : e.1 = k <;> simp [hp]) m k
  simp only [NumberMap.get, NumberMap.setCounter] at h ⊢
  rw [hm, h]
  simp

/-- C3 counterexample: `fig` has `prefix_number = false`, yet the two
blocks of the two chapters (hierarchical numbers 1 and 2) are assigned
"1.1" and "2.2": the chapter prefix still alters the assigned numbers, so
they are not the bare counter values 1 and 2 that differ by exactly 1. -/
theorem c3_counterexample :
    Config.pfxNumber egConfig "fig" = false
    ∧ c3numbers = some [some "1.1", some "2.2"]
    ∧ ("1.1" : String) ≠ "1" ∧ ("2.2" : String) ≠ "2" := by
  refine ⟨by decide, by decide, by decide, by decide⟩

/-- C3 as amended: for an environment with `prefix_number = false` the
per-environment counter is never reset between documents and each
successful assignment bumps it by exactly 1; but the assigned number
string is the counter value *prefixed with the chapter's hierarchical
number whenever the chapter has one* (the prefix is applied regardless of
`prefix_number`), so only in documents without hierarchical numbers do the
assigned numbers themselves increase by exactly 1. -/
theorem c3_global_counter (config : Config) (m : List (String × Nat))
    (b : Blox) (sn : Option String) (c : Nat) (s : String)
    (hpfx : config.pfxNumber b.env = false)
    (hc : NumberMap.get m b.env = some c) (hs : b.number = some s) :
    NumberMap.get (NumberMap.reset m config) b.env = NumberMap.get m b.env
    ∧ NumberMap.get (NumberMap.setCounter m b.env (c + 1)) b.env =
        some (c + 1)
    ∧ NumberMap.set_blox m b sn =
        .ok (NumberMap.setCounter m b.env (c + 1),
             { b with number := some (numberString sn c) }) := by
  refine ⟨numberMapGet_reset config m b.env hpfx,
          numberMapGet_setCounter m b.env (c + 1) c hc, ?_⟩
  simp only [NumberMap.set_blox]
  rw [hc]
  cases sn <;> simp [Blox.set_number, hs, numberString]

/-- Witness for C3 as amended, at the `fig` environment with counter 1 in
chapter "2.". -/
theorem c3_global_counter_witness :
    NumberMap.get (NumberMap.reset (NumberMap.new egConfig) egConfig) "fig" =
      NumberMap.get (NumberMap.new egConfig) "fig"
    ∧ NumberMap.get
        (NumberMap.setCounter (NumberMap.new egConfig) "fig" 2) "fig" = some 2
    ∧ NumberMap.set_blox (NumberMap.new egConfig)
        (Blox.build egConfig "fig" CodeBlockOptions.default []) (some "2.") =
        .ok (NumberMap.setCounter (NumberMap.new egConfig) "fig" 2,
             { Blox.build egConfig "fig" CodeBlockOptions.default [] with
               number := some (numberString (some "2.") 1) }) :=
  c3_global_counter egConfig (NumberMap.new egConfig)
    (Blox.build egConfig "fig" CodeBlockOptions.default []) (some "2.") 1 ""
    (by decide) (by decide) (by decide)

end MdbookBlox

namespace MdbookBlox

/-- `takeWhile` keeps a list all of whose elements satisfy the test. -/
theorem takeWhile_of_all {α : Type} (p : α → Bool) (l : List α)
    (h : l.all p = true) : l.takeWhile p = l := by
  induction l with
  | nil => rfl
  | cons hd tl ih =>
    simp only [List.all_cons, Bool.and_eq_true] at h
    simp [List.takeWhile_cons, h.1, ih h.2]

/-- `takeWhile` stops exactly at the first failing element. -/
theorem takeWhile_append_stop {α : Type} (p : α → Bool) (l1 l2 : List α)
    (c : α) (h1 : l1.all p = true) (hc : p c = false) :
    (l1 ++ c :: l2).takeWhile p = l1 := by
  induction l1 with
  | nil => simp [List.takeWhile_cons, hc]
  | cons hd tl ih =>
    simp only [List.all_cons, Bool.and_eq_true] at h1
    simp [List.takeWhile_cons, h1.1, ih h1.2]

/-- String concatenation concatenates the character data. -/
theorem string_data_append (a b : String) :
    (a ++ b).toList = a.toList ++ b.toList := rfl

/-- C8 counterexample: a block labelled `L`, defined in `a.md` with its
name hidden and no title, referenced from `b.md` via a `ref` token,
resolves to the error marker — which does not begin with `[`, so it is
not a markdown link of any path (see `looksLikeLink_markdown_link`). -/
theorem c8_counterexample :
    refReplacement egConfig [("L", c8bloxHidden)] (some ["b.md"]) "ref" "L" =
      ("**[??blox-ref: Blox does not have a title??]**",
       ["L: Blox does not have a title"])
    ∧ looksLikeLink "**[??blox-ref: Blox does not have a title??]**"
        = false := by
  refine ⟨by decide, by decide⟩

/-- C8 as amended: whenever the `ref` dispatch produces a link at all —
the block must have an auto title, i.e. a title or a visible name — the
link target is the code's relative path from the referencing document `pB`
to the defining document `pA` (`diff_paths` against `pB`'s parent, empty
when `pA = pB`) followed by the anchor, and stripping the anchor fragment
recovers exactly that relative path. -/
theorem c8_ref_link_path (config : Config) (labMap : List (String × Blox))
    (blox : Blox) (l t : String) (pA pB : BPath)
    (hfind : alistLookup labMap l = some blox)
    (hpath : blox.path = some pA)
    (htitle : blox.title_auto config = some t)
    (hhash : (if pA = pB then "" else
        pathToString (diffPaths pA pB.dropLast)).toList.all
        (fun c => !(c = '#')) = true) :
    Blox.rel_path blox pB =
      some (if pA = pB then "" else pathToString (diffPaths pA pB.dropLast))
    ∧ refReplacement config labMap (some pB) "ref" l =
      (markdown_link t
        ((if pA = pB then "" else pathToString (diffPaths pA pB.dropLast))
          ++ (((blox.id_str config).map (fun s => "#" ++ s)).getD "")), [])
    ∧ stripAnchor
        ((if pA = pB then "" else pathToString (diffPaths pA pB.dropLast))
          ++ (((blox.id_str config).map (fun s => "#" ++ s)).getD "")) =
        (if pA = pB then "" else pathToString (diffPaths pA pB.dropLast))
    ∧ (pA = pB →
        (if pA = pB then "" else pathToString (diffPaths pA pB.dropLast))
          = "") := by
  have hrel : Blox.rel_path blox pB =
      some (if pA = pB then ""
            else pathToString (diffPaths pA pB.dropLast)) := by
    simp only [Blox.rel_path]
    rw [hpath]
    rfl
  refine ⟨hrel, ?_, ?_, fun h => by simp [h]⟩
  · simp only [refReplacement]
    rw [hfind]
    simp only [Option.some_bind, hrel]
    rw [if_neg (by decide : ¬("ref" : String) = "Tref"),
        if_neg (by decide : ¬("ref" : String) = "Nref"),
        if_neg (by decide : ¬("ref" : String) = "lref"),
        if_neg (by decide : ¬("ref" : String) = "tref"),
        if_neg (by decide : ¬("ref" : String) = "nref"),
        if_neg (by decide : ¬("ref" : String) = "fref")]
    rw [htitle]
  · cases hid : blox.id_str config with
    | none =>
      have ha : (Option.map (fun s => "#" ++ s)
          (none : Option String)).getD "" = "" := rfl
      rw [ha]
      unfold stripAnchor
      rw [string_data_append]
      rw [show ("" : String).toList = ([] : List Char) from rfl,
          List.append_nil]
      rw [takeWhile_of_all _ _ hhash]
      rfl
    | some i =>
      have ha : (Option.map (fun s => "#" ++ s) (some i)).getD ""
          = "#" ++ i := rfl
      rw [ha]
      unfold stripAnchor
      rw [string_data_append]
      rw [show ("#" ++ i).toList = '#' :: i.toList from rfl]
      rw [takeWhile_append_stop _ _ _ _ hhash (by decide)]
      rfl

/-- Witness for C8 as amended at concrete documents `a.md` and `b.md`. -/
theorem c8_ref_link_path_witness :
    Blox.rel_path c8blox ["b.md"] =
      some (if (["a.md"] : BPath) = ["b.md"] then ""
            else pathToString (diffPaths ["a.md"] (["b.md"] : BPath).dropLast))
    ∧ refReplacement egConfig [("L", c8blox)] (some ["b.md"]) "ref" "L" =
      (markdown_link "Alert: T"
        ((if (["a.md"] : BPath) = ["b.md"] then ""
          else pathToString (diffPaths ["a.md"] (["b.md"] : BPath).dropLast))
          ++ (((c8blox.id_str egConfig).map (fun s => "#" ++ s)).getD "")), [])
    ∧ stripAnchor
        ((if (["a.md"] : BPath) = ["b.md"] then ""
          else pathToString (diffPaths ["a.md"] (["b.md"] : BPath).dropLast))
          ++ (((c8blox.id_str egConfig).map (fun s => "#" ++ s)).getD "")) =
        (if (["a.md"] : BPath) = ["b.md"] then ""
         else pathToString (diffPaths ["a.md"] (["b.md"] : BPath).dropLast))
    ∧ ((["a.md"] : BPath) = ["b.md"] →
        (if (["a.md"] : BPath) = ["b.md"] then ""
         else pathToString (diffPaths ["a.md"] (["b.md"] : BPath).dropLast))
          = "") :=
  c8_ref_link_path egConfig [("L", c8blox)] c8blox "L" "Alert: T"
    ["a.md"] ["b.md"] (by decide) (by decide) (by decide) (by decide)

end MdbookBlox

namespace MdbookBlox

/-- A slice is nonempty exactly when its start is before both its stop and
the end of the buffer. -/
theorem sliceL_ne_nil_iff (s : List Char) (a b : Nat) :
    (sliceL s a b ≠ []) ↔ (a < b ∧ a < s.length) := by
  unfold sliceL
  rw [← List.length_pos_iff_ne_nil, List.length_drop, List.length_take]
  omega

/-- Adjacent slices concatenate. -/
theorem sliceL_append (s : List Char) (a b c : Nat) (hab : a ≤ b)
    (hbc : b ≤ c) (hc : c ≤ s.length) :
    sliceL s a b ++ sliceL s b c = sliceL s a c := by
  unfold sliceL
  have hbl : (s.take b).length = b := by
    rw [List.length_take]; omega
  have h1 : s.take c = s.take b ++ (s.take c).drop b := by
    conv_lhs => rw [← List.take_append_drop b (s.take c)]
    rw [List.take_take, Nat.min_eq_left hbc]
  conv_rhs => rw [h1]
  rw [List.drop_append_eq_append_drop, hbl, Nat.sub_eq_zero_of_le hab,
    List.drop_zero]

/-- A slice that starts at the buffer's start and stops at its end is the
buffer. -/
theorem sliceL_whole (s : List Char) : sliceL s 0 s.length = s := by
  unfold sliceL
  rw [List.drop_zero, List.take_length]

/-- Phase 1 on a fenced region that is not a blox block: the region's text
is kept as a literal item and the stores are untouched. -/
theorem processEvent_none (config : Config) (chapter : List Char)
    (st : ProcState) (items : List ((Nat × Nat) × BookContentItem))
    (span : Nat × Nat) (header : List Char)
    (h : Blox.parse config (sliceL chapter span.1 span.2) header = .ok none)
    (hne : sliceL chapter span.1 span.2 ≠ []) :
    processEvent config chapter (st, items) (span, header) =
      .ok (st, items ++
        [(span, BookContentItem.other (sliceL chapter span.1 span.2))]) := by
  simp only [processEvent]
  rw [h]
  simp [BookContentItem.new_other, hne]

/-- Phase 1 over a document whose fenced regions are all literal: the
stores are untouched and the items are the regions' literals, in order. -/
theorem phase1_literal (config : Config) (chapter : List Char)
    (events : List ((Nat × Nat) × List Char)) :
    ∀ (st : ProcState) (items0 : List ((Nat × Nat) × BookContentItem))
      (last : Nat), eventsWF chapter events last →
      literalEvents config chapter events →
    events.foldlM (processEvent config chapter) (st, items0) =
      .ok (st, items0 ++ blocksOf chapter events) := by
  induction events with
  | nil =>
    intro st items0 last _ _
    simp only [List.foldlM_nil, blocksOf, List.map_nil, List.append_nil]
    rfl
  | cons ev rest ih =>
    intro st items0 last hwf hlit
    obtain ⟨span, header⟩ := ev
    simp only [eventsWF] at hwf
    simp only [literalEvents] at hlit
    have hlen : span.2 ≤ chapter.length := by
      have : eventsWF chapter rest span.2 := hwf.2.2
      clear hlit hwf ih
      induction rest generalizing span with
      | nil => simpa [eventsWF] using this
      | cons e r ihr =>
        obtain ⟨sp, hd⟩ := e
        simp only [eventsWF] at this
        have := ihr sp (by exact this.2.2)
        omega
    have hne : sliceL chapter span.1 span.2 ≠ [] := by
      rw [sliceL_ne_nil_iff]
      omega
    rw [List.foldlM_cons,
      processEvent_none config chapter st items0 span header hlit.1 hne]
    have : (Except.ok (st, items0 ++
        [(span, BookContentItem.other (sliceL chapter span.1 span.2))]) >>=
        fun a => rest.foldlM (processEvent config chapter) a) =
        rest.foldlM (processEvent config chapter) (st, items0 ++
          [(span, BookContentItem.other (sliceL chapter span.1 span.2))]) :=
      rfl
    rw [this, ih st _ span.2 hwf.2.2 hlit.2]
    simp [blocksOf]

end MdbookBlox

namespace MdbookBlox

/-- One gap-scan round with no placeholder match: the gap becomes a single
literal (dropped when empty) and `last` moves to the item's span end. -/
theorem gapScanItem_no_match (chapter : List Char)
    (others : List ((Nat × Nat) × BookContentItem)) (last : Nat)
    (span : Nat × Nat) (bc : BookContentItem)
    (hcap : renderCaptures (sliceL chapter last span.1) = []) :
    gapScanItem chapter (others, last) (span, bc) =
      (others ++
        (match BookContentItem.new_other (sliceL chapter last span.1) with
         | some b => [((last, span.1), b)]
         | none => []), span.2) := by
  simp only [gapScanItem]
  rw [hcap]
  simp only [List.foldl_nil]
  cases h : BookContentItem.new_other (sliceL chapter last span.1) <;>
    simp [h]

/-- The whole gap scan with no placeholder matches: the gaps become
literal items, appended in order. -/
theorem gapFold_no_matches (chapter : List Char)
    (items : List ((Nat × Nat) × BookContentItem)) :
    ∀ (others0 : List ((Nat × Nat) × BookContentItem)) (last : Nat),
      noRenderInGapsItems chapter items last →
    items.foldl (gapScanItem chapter) (others0, last) =
      (others0 ++ gapsOf chapter items last, finalLast items last) := by
  induction items with
  | nil =>
    intro o l _
    simp [gapsOf, finalLast]
  | cons it rest ih =>
    intro o l hh
    obtain ⟨span, bc⟩ := it
    simp only [noRenderInGapsItems] at hh
    rw [List.foldl_cons, gapScanItem_no_match chapter o l span bc hh.1,
      ih _ _ hh.2]
    simp [gapsOf, finalLast, List.append_assoc]

end MdbookBlox

namespace MdbookBlox

/-- Pure list algebra: moving a block item past the gap items produced in
front of it. -/
theorem perm_gap_shuffle {α : Type} (b s : α) (B g G T : List α)
    (h : List.Perm (B ++ s :: G) T) :
    List.Perm (b :: (B ++ s :: (g ++ G))) (g ++ b :: T) := by
  have h1 : List.Perm (s :: (g ++ G)) (g ++ s :: G) := List.perm_middle.symm
  have h2 : List.Perm (B ++ s :: (g ++ G)) (B ++ (g ++ s :: G)) :=
    List.Perm.append_left B h1
  have h3 : List.Perm (B ++ (g ++ s :: G)) (g ++ (B ++ s :: G)) := by
    rw [← List.append_assoc, ← List.append_assoc]
    exact List.Perm.append_right _ List.perm_append_comm
  have h4 : List.Perm (g ++ (B ++ s :: G)) (g ++ T) :=
    List.Perm.append_left g h
  have h5 : List.Perm (b :: (g ++ T)) (g ++ b :: T) := List.perm_middle.symm
  exact ((h2.trans (h3.trans h4)).cons b).trans h5

/-- The list `process_section` sorts is a permutation of the tiled order. -/
theorem tiled_perm (chapter : List Char)
    (events : List ((Nat × Nat) × List Char)) : ∀ last : Nat,
    List.Perm
      (blocksOf chapter events ++ [sentinelItem chapter] ++
        gapsOf chapter
          (blocksOf chapter events ++ [sentinelItem chapter]) last)
      (tiled chapter events last) := by
  induction events with
  | nil =>
    intro last
    simp only [blocksOf, List.map_nil, List.nil_append, tiled, sentinelItem,
      gapsOf, List.append_nil]
    exact List.perm_append_comm
  | cons ev rest ih =>
    intro last
    obtain ⟨span, header⟩ := ev
    simp only [blocksOf, List.map_cons, tiled, gapsOf, List.cons_append,
      List.nil_append, List.append_assoc]
    exact perm_gap_shuffle _ _ _ _ _ _
      (by simpa [List.append_assoc] using ih span.2)

end MdbookBlox

namespace MdbookBlox

/-- `new_other` yields an item exactly on nonempty text. -/
theorem new_other_eq_some (content : List Char) (bc : BookContentItem)
    (h : BookContentItem.new_other content = some bc) :
    content ≠ [] ∧ bc = BookContentItem.other content := by
  by_cases he : content = []
  · rw [BookContentItem.new_other, if_pos (by simp [he])] at h
    cases h
  · rw [BookContentItem.new_other,
      if_neg (by simpa [List.isEmpty_iff] using he)] at h
    cases h
    exact ⟨he, rfl⟩

/-- Under well-formed events the tiled order is strictly sorted on span
starts, and every start is at least the running offset. -/
theorem tiled_sorted (chapter : List Char)
    (events : List ((Nat × Nat) × List Char)) : ∀ last : Nat,
    eventsWF chapter events last →
    List.Sorted (fun (a b : (Nat × Nat) × BookContentItem) =>
        a.1.1 < b.1.1) (tiled chapter events last)
    ∧ ∀ x ∈ tiled chapter events last, last ≤ x.1.1 := by
  induction events with
  | nil =>
    intro last hwf
    simp only [eventsWF] at hwf
    cases h : BookContentItem.new_other (sliceL chapter last chapter.length)
      with
    | none =>
      simp only [tiled, h, List.nil_append]
      refine ⟨List.sorted_singleton _, ?_⟩
      intro x hx
      simp only [sentinelItem, List.mem_singleton] at hx
      subst hx
      simpa using hwf
    | some bc =>
      have hne := (new_other_eq_some _ _ h).1
      have hlt : last < chapter.length :=
        ((sliceL_ne_nil_iff _ _ _).1 hne).2
      simp only [tiled, h, List.cons_append, List.nil_append]
      constructor
      · rw [List.sorted_cons]
        refine ⟨?_, List.sorted_singleton _⟩
        intro x hx
        simp only [sentinelItem, List.mem_singleton] at hx
        subst hx
        simpa using hlt
      · intro x hx
        rcases List.mem_cons.1 hx with h1 | h1
        · subst h1; simp
        · simp only [sentinelItem, List.mem_singleton] at h1
          subst h1
          simpa using Nat.le_of_lt hlt
  | cons ev rest ih =>
    intro last hwf
    obtain ⟨span, header⟩ := ev
    simp only [eventsWF] at hwf
    obtain ⟨hle, hlt, hwfr⟩ := hwf
    obtain ⟨ihs, ihb⟩ := ih span.2 hwfr
    cases h : BookContentItem.new_other (sliceL chapter last span.1) with
    | none =>
      simp only [tiled, h, List.nil_append]
      constructor
      · rw [List.sorted_cons]
        refine ⟨?_, ihs⟩
        intro x hx
        have := ihb x hx
        simp only []
        omega
      · intro x hx
        rcases List.mem_cons.1 hx with h1 | h1
        · subst h1; simpa using hle
        · have := ihb x h1; omega
    | some bc =>
      have hne := (new_other_eq_some _ _ h).1
      have hlast : last < span.1 := ((sliceL_ne_nil_iff _ _ _).1 hne).1
      simp only [tiled, h, List.cons_append, List.nil_append]
      constructor
      · rw [List.sorted_cons]
        constructor
        · intro x hx
          rcases List.mem_cons.1 hx with h1 | h1
          · subst h1; simpa using hlast
          · have := ihb x h1
            simp only []
            omega
        · rw [List.sorted_cons]
          refine ⟨?_, ihs⟩
          intro x hx
          have := ihb x hx
          simp only []
          omega
      · intro x hx
        rcases List.mem_cons.1 hx with h1 | h1
        · subst h1; simp
        · rcases List.mem_cons.1 h1 with h2 | h2
          · subst h2; simpa using hle
          · have := ihb x h2; omega

end MdbookBlox

namespace MdbookBlox

/-- The stable start sort turns the appended block/sentinel/gap items into
exactly the tiled order. -/
theorem sort_tiled (chapter : List Char)
    (events : List ((Nat × Nat) × List Char)) (last : Nat)
    (hwf : eventsWF chapter events last) :
    sortByStart
      (blocksOf chapter events ++ [sentinelItem chapter] ++
        gapsOf chapter
          (blocksOf chapter events ++ [sentinelItem chapter]) last) =
      tiled chapter events last := by
  have hperm2 : List.Perm
      (sortByStart
        (blocksOf chapter events ++ [sentinelItem chapter] ++
          gapsOf chapter
            (blocksOf chapter events ++ [sentinelItem chapter]) last))
      (tiled chapter events last) :=
    (List.perm_insertionSort _ _).trans (tiled_perm chapter events last)
  have hsorted := (tiled_sorted chapter events last hwf).1
  have hklt : List.Pairwise (fun a b : Nat => a < b)
      ((tiled chapter events last).map (fun x => x.1.1)) :=
    (List.pairwise_map).2 hsorted
  haveI : IsTotal ((Nat × Nat) × BookContentItem)
      (fun a b => a.1.1 ≤ b.1.1) := ⟨fun a b => Nat.le_total _ _⟩
  haveI : IsTrans ((Nat × Nat) × BookContentItem)
      (fun a b => a.1.1 ≤ b.1.1) := ⟨fun a b c h1 h2 => Nat.le_trans h1 h2⟩
  have hsle : List.Sorted (fun a b : (Nat × Nat) × BookContentItem =>
      a.1.1 ≤ b.1.1)
      (sortByStart
        (blocksOf chapter events ++ [sentinelItem chapter] ++
          gapsOf chapter
            (blocksOf chapter events ++ [sentinelItem chapter]) last)) :=
    List.sorted_insertionSort _ _
  have hndtiled : ((tiled chapter events last).map (fun x => x.1.1)).Nodup :=
    hklt.imp (fun h => Nat.ne_of_lt h)
  have hnd := ((hperm2.map (fun x => x.1.1)).nodup_iff).2 hndtiled
  have hpn : List.Pairwise
      (fun a b : (Nat × Nat) × BookContentItem => a.1.1 ≠ b.1.1)
      (sortByStart
        (blocksOf chapter events ++ [sentinelItem chapter] ++
          gapsOf chapter
            (blocksOf chapter events ++ [sentinelItem chapter]) last)) :=
    (List.pairwise_map).1 hnd
  have hslt : List.Sorted (fun a b : (Nat × Nat) × BookContentItem =>
      a.1.1 < b.1.1)
      (sortByStart
        (blocksOf chapter events ++ [sentinelItem chapter] ++
          gapsOf chapter
            (blocksOf chapter events ++ [sentinelItem chapter]) last)) :=
    (hsle.and hpn).imp (fun h => Nat.lt_of_le_of_ne h.1 h.2)
  haveI : IsAntisymm ((Nat × Nat) × BookContentItem)
      (fun a b => a.1.1 < b.1.1) :=
    ⟨fun a b h1 h2 => absurd h2 (Nat.lt_asymm h1)⟩
  exact List.eq_of_perm_of_sorted hperm2 hslt hsorted

end MdbookBlox

namespace MdbookBlox

/-- Well-formed events keep the running offset within the document. -/
theorem eventsWF_le (chapter : List Char)
    (events : List ((Nat × Nat) × List Char)) : ∀ last : Nat,
    eventsWF chapter events last → last ≤ chapter.length := by
  induction events with
  | nil => intro last h; simpa [eventsWF] using h
  | cons ev rest ih =>
    intro last h
    obtain ⟨span, header⟩ := ev
    simp only [eventsWF] at h
    have := ih span.2 h.2.2
    omega

/-- Literal items stringify to their own text. -/
theorem to_html_other (config : Config) (anon : List Blox)
    (lab : List (String × Blox)) (content : List Char) :
    BookContentItem.to_html config anon lab
      (BookContentItem.other content) = content := rfl

/-- Stringifying the filtered tiled items reproduces the remaining text of
the document, whatever the block stores hold. -/
theorem tiled_text (config : Config) (anon : List Blox)
    (lab : List (String × Blox)) (chapter : List Char)
    (events : List ((Nat × Nat) × List Char)) : ∀ last : Nat,
    eventsWF chapter events last →
    ((((tiled chapter events last).filter
        (fun it => decide (it.1.1 < it.1.2))).map (fun it => it.2)).map
      (fun it => it.to_html config anon lab)).flatten
      = sliceL chapter last chapter.length := by
  induction events with
  | nil =>
    intro last hwf
    simp only [eventsWF] at hwf
    cases h : BookContentItem.new_other (sliceL chapter last chapter.length)
      with
    | none =>
      have hsl : sliceL chapter last chapter.length = [] := by
        by_contra hne
        rw [BookContentItem.new_other,
          if_neg (by simpa [List.isEmpty_iff] using hne)] at h
        cases h
      simp only [tiled, h, List.nil_append]
      simp [sentinelItem, BookContentItem.new_other_empty, hsl]
    | some bc =>
      obtain ⟨hne, hbc⟩ := new_other_eq_some _ _ h
      have hlt : last < chapter.length :=
        ((sliceL_ne_nil_iff _ _ _).1 hne).2
      subst hbc
      simp only [tiled, h, List.cons_append, List.nil_append]
      simp [sentinelItem, BookContentItem.new_other_empty, hlt,
        to_html_other]
  | cons ev rest ih =>
    intro last hwf
    obtain ⟨span, header⟩ := ev
    simp only [eventsWF] at hwf
    obtain ⟨hle, hlt, hwfr⟩ := hwf
    have hlen : span.2 ≤ chapter.length := eventsWF_le chapter rest span.2 hwfr
    have hih := ih span.2 hwfr
    cases h : BookContentItem.new_other (sliceL chapter last span.1) with
    | none =>
      have hsl : sliceL chapter last span.1 = [] := by
        by_contra hne
        rw [BookContentItem.new_other,
          if_neg (by simpa [List.isEmpty_iff] using hne)] at h
        cases h
      have hlast : last = span.1 := by
        have := (sliceL_ne_nil_iff chapter last span.1).2
        by_contra hne
        have h1 : last < span.1 := by omega
        have h2 : last < chapter.length := by omega
        exact (by simpa [hsl] using this ⟨h1, h2⟩ : False)
      simp only [tiled, h, List.nil_append, List.filter_cons,
        decide_eq_true_eq, hlt, if_pos, List.map_cons, List.flatten_cons,
        to_html_other]
      rw [hih, hlast,
        sliceL_append chapter span.1 span.2 chapter.length
          (Nat.le_of_lt hlt) hlen (Nat.le_refl _)]
    | some bc =>
      obtain ⟨hne, hbc⟩ := new_other_eq_some _ _ h
      have hlast : last < span.1 := ((sliceL_ne_nil_iff _ _ _).1 hne).1
      subst hbc
      simp only [tiled, h, List.cons_append, List.nil_append,
        List.filter_cons, decide_eq_true_eq, hlt, hlast, if_pos,
        List.map_cons, List.flatten_cons, to_html_other]
      rw [hih,
        sliceL_append chapter span.1 span.2 chapter.length
          (Nat.le_of_lt hlt) hlen (Nat.le_refl _),
        sliceL_append chapter last span.1 chapter.length
          (Nat.le_of_lt hlast)
          (Nat.le_trans (Nat.le_of_lt hlt) hlen) (Nat.le_refl _)]

end MdbookBlox

namespace MdbookBlox

/-- `process_section` on a document whose fenced regions are all literal
and whose gaps hold no render placeholder: the stores are untouched and
the section's items are the filtered tiled order. -/
theorem processSection_literal (config : Config) (st : ProcState)
    (sid : Nat) (chapter : List Char)
    (events : List ((Nat × Nat) × List Char))
    (hwf : eventsWF chapter events 0)
    (hlit : literalEvents config chapter events)
    (hgap : noRenderInGapsItems chapter
      (blocksOf chapter events ++ [sentinelItem chapter]) 0) :
    processSection config st sid chapter events =
      .ok { st with section_items :=
              alistInsert st.section_items sid (tiledItems chapter events) }
    := by
  unfold processSection
  rw [phase1_literal config chapter events st [] 0 hwf hlit]
  simp only [List.nil_append]
  have hs : ((chapter.length, chapter.length),
      BookContentItem.new_other_empty) = sentinelItem chapter := rfl
  rw [hs]
  rw [gapFold_no_matches chapter
    (blocksOf chapter events ++ [sentinelItem chapter]) [] 0 hgap]
  simp only [List.nil_append]
  rw [sort_tiled chapter events 0 hwf]
  rfl

end MdbookBlox

namespace MdbookBlox

/-- C6 as amended: for every document in which no fenced region parses as
a blox block AND no `\x7b\x7b blox-render: ... \x7d\x7d` placeholder
matches in the text between the fenced regions, the assembler's
stringified output equals the document's input text exactly. (The
counterexample shows the identity fails as soon as the text contains a
render placeholder, which the claim explicitly included.) -/
theorem c6_no_blocks_identity (config : Config) (st : ProcState)
    (sid : Nat) (chapter : List Char)
    (events : List ((Nat × Nat) × List Char))
    (hwf : eventsWF chapter events 0)
    (hlit : literalEvents config chapter events)
    (hgap : noRenderInGapsItems chapter
      (blocksOf chapter events ++ [sentinelItem chapter]) 0) :
    (processSection config st sid chapter events).bind
      (fun st2 => stringifySection config st2 sid) = .ok chapter := by
  rw [processSection_literal config st sid chapter events hwf hlit hgap]
  show stringifySection config
    { st with section_items :=
        alistInsert st.section_items sid (tiledItems chapter events) } sid
    = .ok chapter
  simp only [stringifySection]
  rw [alistLookup_insert_self]
  simp only [tiledItems]
  rw [tiled_text config st.anonymous_blox st.labelled_blox chapter events 0
    hwf]
  rw [sliceL_whole]

end MdbookBlox

namespace MdbookBlox

/-- C6 counterexample: the block-free document
`"a \x7b\x7bblox-render: x \x7d\x7d b"` (no fenced region at all, one
render placeholder naming an unregistered label) stringifies to `"a  b"`:
the placeholder is swallowed, so output ≠ input even though no fenced
region parses as a blox block. -/
theorem c6_counterexample :
    c6tokenText = .ok "a  b".toList
    ∧ "a  b".toList ≠ c6tokenDoc := by
  refine ⟨by decide, by decide⟩

/-- Witness for C6 as amended: a document with one non-blox fenced region
(`rust`) and no placeholders round-trips exactly. -/
theorem c6_no_blocks_identity_witness :
    (processSection egConfig ProcState.initial 0 c6doc.toList c6events).bind
      (fun st2 => stringifySection egConfig st2 0) = .ok c6doc.toList :=
  c6_no_blocks_identity egConfig ProcState.initial 0 c6doc.toList c6events
    ⟨by decide, by decide,
      (by decide : (18 : Nat) ≤ c6doc.toList.length)⟩
    ⟨by decide, trivial⟩
    ⟨by decide, by decide, trivial⟩

end MdbookBlox

namespace MdbookBlox

/-- Replacing the content leaves every other chapter field unchanged, so
the rewritten item still agrees with the original. -/
theorem agrees_withContent (c : Chapter) (content : List Char) :
    itemAgreesExceptContent (BookItem.chapter c)
      (BookItem.chapter (c.withContent content)) := by
  cases c
  simp [itemAgreesExceptContent, Chapter.withContent, Chapter.name,
    Chapter.number, Chapter.sub_items, Chapter.path, Chapter.source_path,
    Chapter.parent_names]

/-- Every item agrees with itself except possibly on content. -/
theorem agrees_refl (item : BookItem) :
    itemAgreesExceptContent item item := by
  cases item <;> simp [itemAgreesExceptContent]

/-- Pointwise agreement between the input sections and the rewritten
sections of `run`, for any content table. -/
theorem agrees_map_enumFrom (nc : List (Nat × List Char))
    (sections : List BookItem) : ∀ (k i : Nat), i < sections.length →
    itemAgreesExceptContent (sections.getD i BookItem.separator)
      ((List.map (fun e =>
          match e with
          | (sec_id, BookItem.chapter c) =>
            match alistLookup nc sec_id with
            | some content => BookItem.chapter (c.withContent content)
            | none => BookItem.chapter c
          | (_, item) => item) (sections.enumFrom k)).getD i
        BookItem.separator) := by
  induction sections with
  | nil => intro k i hi; simp at hi
  | cons x xs ih =>
    intro k i hi
    cases i with
    | zero =>
      simp only [List.enumFrom, List.map_cons, List.getD_cons_zero]
      cases x with
      | chapter c =>
        cases hl : alistLookup nc k with
        | some content => simp only [hl]; exact agrees_withContent c content
        | none => simp only [hl]; exact agrees_refl (BookItem.chapter c)
      | separator => exact agrees_refl BookItem.separator
      | partTitle t => exact agrees_refl (BookItem.partTitle t)
    | succ j =>
      simp only [List.enumFrom, List.map_cons, List.getD_cons_succ]
      have hj : j < xs.length := by
        simp only [List.length_cons] at hi
        omega
      exact ih (k + 1) j hj

/-- C10: `BloxPreProcessor::run` modifies only the content of chapter
items: the returned book has the same number of top-level sections, every
non-chapter item is identical, and every chapter keeps its name, number,
sub-items, paths and parent names. -/
theorem c10_run_frame
    (tokenize : List Char → List ((Nat × Nat) × List Char))
    (config : Config) (book book' : Book)
    (h : BloxPreProcessor.run tokenize config book = .ok book') :
    book'.sections.length = book.sections.length
    ∧ ∀ i : Nat, i < book.sections.length →
        itemAgreesExceptContent (book.sections.getD i BookItem.separator)
          (book'.sections.getD i BookItem.separator) := by
  unfold BloxPreProcessor.run at h
  cases hp : BloxProcessor.process tokenize book config with
  | error e => rw [hp] at h; cases h
  | ok nc =>
    rw [hp] at h
    injection h with h2
    subst h2
    constructor
    · simp [List.enum_length]
    · intro i hi
      exact agrees_map_enumFrom nc book.sections 0 i hi

/-- Witness for C10: a book of a separator and one chapter runs through
the whole pipeline and keeps its shape. -/
theorem c10_run_frame_witness :
    itemAgreesExceptContent (c10book.sections.getD 1 BookItem.separator)
      (c10book.sections.getD 1 BookItem.separator) :=
  (c10_run_frame c10tok egConfig c10book c10book (by rfl)).2 1 (by decide)

end MdbookBlox
